import Mathlib

/-!
Verification development for the rdfless core: the recovery parsing
pipeline (src/parser/robust.rs), the prefix scanner (src/parser/common.rs),
the triple filter (src/filter.rs), the data model (src/types.rs) and the
renderer (src/formatter/writer.rs, compact.rs, expanded.rs).

Rust strings are modelled as Lean `String`; the Rust `str` helpers
(`trim`, `starts_with`, `ends_with`, `contains`, `find`) are modelled
character-wise on `String.data` (byte indexing and char indexing agree on
the ASCII inputs considered here).  `HashMap<String, String>` is modelled
as an association list with first-match lookup and last-write-wins insert,
which matches the unique-key discipline of the map.  `Vec` push/extend is
list append.  Cloning a value is the identity in a pure value semantics.
-/

namespace Rdfless

/-- Model of Rust `char::is_whitespace` (restricted to the ASCII whitespace
that occurs in the inputs considered here). -/
def wsChar (c : Char) : Bool := c.isWhitespace

/-- Right-trim of a character list: model of Rust `str::trim_end`. -/
def rtrimChars : List Char → List Char
  | [] => []
  | c :: cs =>
    match rtrimChars cs with
    | [] => if wsChar c then [] else [c]
    | r => c :: r

/-- Model of Rust `str::trim` (trim both ends). -/
def trimChars (cs : List Char) : List Char :=
  rtrimChars (cs.dropWhile wsChar)

/-- Model of Rust `str::trim` on `String`. -/
def strTrim (s : String) : String := String.mk (trimChars s.data)

/-- Model of Rust `str::starts_with` for a string pattern. -/
def strStarts (s p : String) : Bool := p.data.isPrefixOf s.data

/-- Model of Rust `str::ends_with` for a string pattern. -/
def strEnds (s p : String) : Bool := p.data.isSuffixOf s.data

/-- Model of Rust `str::contains` for a char pattern. -/
def strContainsChar (s : String) (c : Char) : Bool := s.data.contains c

/-- First-match lookup: model of `HashMap::get` (keys are unique). -/
def pmLookup (pm : List (String × String)) (k : String) : Option String :=
  match pm with
  | [] => none
  | (k', v) :: rest => if k' = k then some v else pmLookup rest k

/-- Last-write-wins insert: model of `HashMap::insert`. -/
def pmInsert (pm : List (String × String)) (k v : String) : List (String × String) :=
  match pm with
  | [] => [(k, v)]
  | (k', v') :: rest => if k' = k then (k, v) :: rest else (k', v') :: pmInsert rest k v

/-- Fold of `pmInsert` over a list of pairs, in order. -/
def pmInsertAll (pm : List (String × String)) : List (String × String) → List (String × String)
  | [] => pm
  | (k, v) :: rest => pmInsertAll (pmInsert pm k v) rest

/-! Section: Data model: src/types.rs -/

/-- Model of `SubjectType` (src/types.rs). -/
inductive SubjectType where
  | NamedNode
  | BlankNode
  | Triple
deriving DecidableEq, Repr

/-- Model of `ObjectType` (src/types.rs). -/
inductive ObjectType where
  | NamedNode
  | BlankNode
  | Literal
  | Triple
deriving DecidableEq, Repr

/-- Model of `OwnedTriple` (src/types.rs): the two `Option<Box<OwnedTriple>>`
fields make this a nested inductive rather than a structure. -/
inductive OwnedTriple where
  | mk
      (subject_type : SubjectType)
      (subject_value : String)
      (predicate : String)
      (object_type : ObjectType)
      (object_value : String)
      (object_datatype : Option String)
      (object_language : Option String)
      (graph : Option String)
      (subject_triple : Option OwnedTriple)
      (object_triple : Option OwnedTriple) : OwnedTriple

def OwnedTriple.subject_type : OwnedTriple → SubjectType
  | .mk st _ _ _ _ _ _ _ _ _ => st

def OwnedTriple.subject_value : OwnedTriple → String
  | .mk _ sv _ _ _ _ _ _ _ _ => sv

def OwnedTriple.predicate : OwnedTriple → String
  | .mk _ _ p _ _ _ _ _ _ _ => p

def OwnedTriple.object_type : OwnedTriple → ObjectType
  | .mk _ _ _ ot _ _ _ _ _ _ => ot

def OwnedTriple.object_value : OwnedTriple → String
  | .mk _ _ _ _ ov _ _ _ _ _ => ov

def OwnedTriple.object_datatype : OwnedTriple → Option String
  | .mk _ _ _ _ _ od _ _ _ _ => od

def OwnedTriple.object_language : OwnedTriple → Option String
  | .mk _ _ _ _ _ _ ol _ _ _ => ol

def OwnedTriple.graph : OwnedTriple → Option String
  | .mk _ _ _ _ _ _ _ g _ _ => g

def OwnedTriple.subject_triple : OwnedTriple → Option OwnedTriple
  | .mk _ _ _ _ _ _ _ _ st _ => st

def OwnedTriple.object_triple : OwnedTriple → Option OwnedTriple
  | .mk _ _ _ _ _ _ _ _ _ ot => ot

/-! Section: Triple filter: src/filter.rs -/

/-- Model of `TripleFilter` (src/filter.rs). -/
structure TripleFilter where
  subject_filter : Option String
  predicate_filter : Option String
  object_filter : Option String

/-- Model of `TripleFilter::is_empty` (src/filter.rs lines 30-34). -/
def TripleFilter.is_empty (f : TripleFilter) : Bool :=
  f.subject_filter.isNone && f.predicate_filter.isNone && f.object_filter.isNone

/-- Model of `TripleFilter::expand_prefixed_name` (src/filter.rs lines 145-167).
The receiver is unused in the source, so this is a plain function. -/
def TripleFilter.expand_prefixed_name (name : String) (prefixes : List (String × String)) : String :=
  if strStarts name "<" && strEnds name ">" then
    String.mk ((name.data.drop 1).dropLast)
  else if strStarts name "http" then
    name
  else
    match name.data.findIdx? (· = ':') with
    | some _ =>
      let pre := String.mk (name.data.takeWhile (· ≠ ':'))
      let local_name := String.mk ((name.data.dropWhile (· ≠ ':')).drop 1)
      match pmLookup prefixes pre with
      | some namespace_iri => namespace_iri ++ local_name
      | none => name
    | none => name

/-- Model of `TripleFilter::matches_subject` (src/filter.rs lines 78-97). -/
def TripleFilter.matches_subject (t : OwnedTriple) (filt : String)
    (prefixes : List (String × String)) : Bool :=
  let expanded := TripleFilter.expand_prefixed_name filt prefixes
  if t.subject_value == expanded then true
  else if strContainsChar filt ':' && !strStarts filt "http" then
    t.subject_value == expanded
  else false

/-- Model of `TripleFilter::matches_predicate` (src/filter.rs lines 99-118). -/
def TripleFilter.matches_predicate (t : OwnedTriple) (filt : String)
    (prefixes : List (String × String)) : Bool :=
  let expanded := TripleFilter.expand_prefixed_name filt prefixes
  if t.predicate == expanded then true
  else if strContainsChar filt ':' && !strStarts filt "http" then
    t.predicate == expanded
  else false

/-- Model of `TripleFilter::matches_object` (src/filter.rs lines 120-143). -/
def TripleFilter.matches_object (t : OwnedTriple) (filt : String)
    (prefixes : List (String × String)) : Bool :=
  if t.object_value == filt then true
  else
    let expanded := TripleFilter.expand_prefixed_name filt prefixes
    if t.object_value == expanded then true
    else if strContainsChar filt ':' && !strStarts filt "http" then
      t.object_value == expanded
    else false

/-- Model of `TripleFilter::matches_triple` (src/filter.rs lines 53-76). -/
def TripleFilter.matches_triple (f : TripleFilter) (t : OwnedTriple)
    (prefixes : List (String × String)) : Bool :=
  (match f.subject_filter with
   | some sf => TripleFilter.matches_subject t sf prefixes
   | none => true) &&
  (match f.predicate_filter with
   | some pf => TripleFilter.matches_predicate t pf prefixes
   | none => true) &&
  (match f.object_filter with
   | some of' => TripleFilter.matches_object t of' prefixes
   | none => true)

/-- Model of `TripleFilter::filter_triples` (src/filter.rs lines 37-51); cloning
a pure value is the identity, so `iter().filter().cloned().collect()` is
`List.filter`. -/
def TripleFilter.filter_triples (f : TripleFilter) (triples : List OwnedTriple)
    (prefixes : List (String × String)) : List OwnedTriple :=
  if f.is_empty then triples
  else triples.filter (fun t => f.matches_triple t prefixes)

/-! Section: Filter claims -/

theorem contains_findIdx_isSome (cs : List Char) (c : Char) :
    cs.contains c = true → (cs.findIdx? (· = c)).isSome = true := by
  induction cs with
  | nil => simp
  | cons a as ih =>
    intro h
    simp only [List.findIdx?_cons]
    by_cases hac : a = c
    · simp [hac]
    · simp only [List.contains_cons] at h
      rw [Bool.or_eq_true] at h
      rcases h with h1 | h2
      · exact absurd (eq_of_beq h1).symm hac
      · simp only [hac, if_neg]
        have := ih h2
        cases hfi : as.findIdx? (· = c) with
        | none => rw [hfi] at this; simp at this
        | some i => simp [hfi]

/-- Concrete triple whose subject IRI is the empty string. -/
def tEmptySubject : OwnedTriple :=
  .mk .NamedNode "" "http://p" .Literal "o1" none none none none none

/-- Concrete triple with a nonempty subject IRI. -/
def tPlainSubject : OwnedTriple :=
  .mk .NamedNode "http://s" "http://p" .Literal "o2" none none none none none

/-- Concrete triple whose literal object text is exactly `foo:bar`. -/
def tColonLiteral : OwnedTriple :=
  .mk .NamedNode "http://s" "http://p" .Literal "foo:bar" none none none none none

/-- C5: with no subject, predicate or object pattern set, `filter_triples`
returns the input triple list unchanged — same members in the same order.
(The embedding is a pure function of the input list, which also reflects
that the source never mutates the borrowed slice: it only reads it and
clones the selected elements.) -/
theorem C5_no_patterns_is_identity (ts : List OwnedTriple) (pm : List (String × String)) :
    TripleFilter.filter_triples ⟨none, none, none⟩ ts pm = ts := by
  simp [TripleFilter.filter_triples, TripleFilter.is_empty]

/-- C10: a supplied-but-empty pattern is not "no pattern": `is_empty` is false
whenever any of the three patterns is `Some` (even `Some ""`), and filtering
with subject pattern `Some ""` keeps exactly the triples whose subject value
is the empty string, rather than acting as the identity. -/
theorem C10_empty_string_pattern_filters :
    (∀ f : TripleFilter,
        (f.subject_filter.isSome || f.predicate_filter.isSome || f.object_filter.isSome) = true →
        f.is_empty = false)
    ∧ TripleFilter.is_empty ⟨some "", none, none⟩ = false
    ∧ ∀ (ts : List OwnedTriple) (pm : List (String × String)),
        TripleFilter.filter_triples ⟨some "", none, none⟩ ts pm
          = ts.filter (fun t => t.subject_value == "") := by
  refine ⟨?_, by rfl, ?_⟩
  · rintro ⟨sf, pf, of'⟩ h
    simp only [TripleFilter.is_empty]
    cases sf <;> cases pf <;> cases of' <;> simp_all
  · intro ts pm
    have hexp : TripleFilter.expand_prefixed_name "" pm = "" := by rfl
    have hmt : ∀ t : OwnedTriple,
        TripleFilter.matches_triple ⟨some "", none, none⟩ t pm = (t.subject_value == "") := by
      intro t
      simp only [TripleFilter.matches_triple, TripleFilter.matches_subject, hexp]
      cases h : t.subject_value == "" <;> simp [h, strContainsChar]
    rw [show TripleFilter.filter_triples ⟨some "", none, none⟩ ts pm
          = ts.filter (fun t => TripleFilter.matches_triple ⟨some "", none, none⟩ t pm) from rfl]
    exact List.filter_congr (fun t _ => hmt t)

/-- C10 witness: instantiating the claim at `Some ""` on a two-triple list. -/
theorem C10_empty_string_pattern_filters_witness :
    TripleFilter.is_empty ⟨some "", none, none⟩ = false
    ∧ TripleFilter.filter_triples ⟨some "", none, none⟩ [tEmptySubject, tPlainSubject] []
        = [tEmptySubject] := by
  obtain ⟨h1, _, h3⟩ := C10_empty_string_pattern_filters
  refine ⟨h1 ⟨some "", none, none⟩ (by decide), ?_⟩
  rw [h3]
  rfl

/-- C6 counterexample: the pattern `foo:bar` has a colon, its left segment
`foo` is not a key of the (empty) prefix map, yet filtering does NOT yield
zero matches: a triple whose literal object text is exactly `foo:bar`
matches by the raw-text comparison in `matches_object`. -/
theorem C6_unknown_colon_pattern_counterexample :
    pmLookup [] "foo" = none
    ∧ strContainsChar "foo:bar" ':' = true
    ∧ TripleFilter.filter_triples ⟨none, none, some "foo:bar"⟩ [tColonLiteral] [] = [tColonLiteral]
    ∧ [tColonLiteral] ≠ ([] : List OwnedTriple) := by
  refine ⟨rfl, by decide, by rfl, by simp⟩

/-- C6 as amended: `filter_triples` is total (never raises), and a pattern
containing a colon whose left segment is not a key of the prefix map — and
which is not angle-bracket wrapped and does not start with `http` — is left
unexpanded by `expand_prefixed_name`; matching then degrades to exact string
equality of the raw pattern against the subject / predicate / object value
(so a triple whose value differs from the raw pattern is not matched, but a
value equal to the raw pattern still is). -/
theorem C6_unknown_colon_pattern_amended (pm : List (String × String)) (name : String)
    (hcolon : strContainsChar name ':' = true)
    (hkey : pmLookup pm (String.mk (name.data.takeWhile (· ≠ ':'))) = none)
    (hbr : (strStarts name "<" && strEnds name ">") = false)
    (hhttp : strStarts name "http" = false) :
    TripleFilter.expand_prefixed_name name pm = name
    ∧ ∀ t : OwnedTriple,
        TripleFilter.matches_subject t name pm = (t.subject_value == name)
        ∧ TripleFilter.matches_predicate t name pm = (t.predicate == name)
        ∧ TripleFilter.matches_object t name pm = (t.object_value == name) := by
  have hexp : TripleFilter.expand_prefixed_name name pm = name := by
    unfold TripleFilter.expand_prefixed_name
    rw [hbr, hhttp]
    simp only [Bool.false_eq_true, if_false]
    have hsome := contains_findIdx_isSome name.data ':' hcolon
    cases hfi : name.data.findIdx? (· = ':') with
    | none => simp [hfi] at hsome
    | some i => simp only [hfi, hkey]
  refine ⟨hexp, fun t => ⟨?_, ?_, ?_⟩⟩
  · simp only [TripleFilter.matches_subject, hexp, hcolon, hhttp]
    cases h : t.subject_value == name <;> simp [h]
  · simp only [TripleFilter.matches_predicate, hexp, hcolon, hhttp]
    cases h : t.predicate == name <;> simp [h]
  · simp only [TripleFilter.matches_object, hexp, hcolon, hhttp]
    cases h : t.object_value == name <;> simp [h]

/-- C6 witness: the amended claim at the concrete pattern `foo:bar` with a
prefix map that does not bind `foo`. -/
theorem C6_unknown_colon_pattern_amended_witness :
    TripleFilter.expand_prefixed_name "foo:bar" [("ex", "http://e/")] = "foo:bar"
    ∧ TripleFilter.matches_object tColonLiteral "foo:bar" [("ex", "http://e/")] = true := by
  have h := C6_unknown_colon_pattern_amended [("ex", "http://e/")] "foo:bar"
    (by decide) (by decide) (by decide) (by decide)
  exact ⟨h.1, by rw [(h.2 tColonLiteral).2.2]; rfl⟩

/-! Section: Format adapter: src/parser/common.rs (oxrdf AST and triple_to_owned) -/

/-- Model of oxrdf `NamedOrBlankNode` (the subject position of a triple as
matched in src/parser/common.rs lines 14-21). -/
inductive NamedOrBlankNode where
  | NamedNode (iri : String)
  | BlankNode (id : String)
deriving DecidableEq, Repr

/-- Model of an oxrdf `Literal`: `language` is `some` exactly for
language-tagged literals; otherwise `datatype` is the literal's datatype
IRI (`xsd:string` for plain literals). -/
structure RLiteral where
  value : String
  language : Option String
  datatype : String
deriving DecidableEq, Repr

/-- Model of oxrdf `Term`.  oxrdf's `Term::Triple(Box<Triple>)` carries a
whole triple; it is flattened here into the triple's three components so
that `Term` is a single (non-mutual) inductive. -/
inductive Term where
  | NamedNode (iri : String)
  | BlankNode (id : String)
  | Literal (lit : RLiteral)
  | Triple (subject : NamedOrBlankNode) (predicate : String) (object : Term)
deriving DecidableEq, Repr

/-- Model of oxrdf `Triple`. -/
structure Triple where
  subject : NamedOrBlankNode
  predicate : String
  object : Term
deriving DecidableEq, Repr

/-- Model of oxrdf `GraphName`. -/
inductive GraphName where
  | NamedNode (iri : String)
  | BlankNode (id : String)
  | DefaultGraph
deriving DecidableEq, Repr

/-- Model of oxrdf `Quad`. -/
structure Quad where
  subject : NamedOrBlankNode
  predicate : String
  object : Term
  graph_name : GraphName
deriving DecidableEq, Repr

/-- The `xsd::STRING` datatype IRI compared against in src/parser/common.rs
line 51. -/
def xsdString : String := "http://www.w3.org/2001/XMLSchema#string"

/-- Model of `format_embedded_triple` (src/parser/common.rs lines 91-96). -/
def format_embedded_triple (t : OwnedTriple) : String :=
  t.subject_value ++ " " ++ t.predicate ++ " " ++ t.object_value

/-- Worker for `triple_to_owned`, structurally recursive in the object term
(the only recursive position used by src/parser/common.rs lines 63-73). -/
def triple_to_owned_core (subj : NamedOrBlankNode) (pred : String) : Term → OwnedTriple
  | .NamedNode n =>
    match subj with
    | .NamedNode s => .mk .NamedNode s pred .NamedNode n none none none none none
    | .BlankNode s => .mk .BlankNode s pred .NamedNode n none none none none none
  | .BlankNode n =>
    match subj with
    | .NamedNode s => .mk .NamedNode s pred .BlankNode n none none none none none
    | .BlankNode s => .mk .BlankNode s pred .BlankNode n none none none none none
  | .Literal lit =>
    let fields :=
      match lit.language with
      | some lang => ((some lang : Option String), (none : Option String))
      | none =>
        if lit.datatype ≠ xsdString then (none, some lit.datatype) else (none, none)
    match subj with
    | .NamedNode s => .mk .NamedNode s pred .Literal lit.value fields.2 fields.1 none none none
    | .BlankNode s => .mk .BlankNode s pred .Literal lit.value fields.2 fields.1 none none none
  | .Triple es ep eo =>
    let owned := triple_to_owned_core es ep eo
    let v := "<< " ++ format_embedded_triple owned ++ " >>"
    match subj with
    | .NamedNode s => .mk .NamedNode s pred .Triple v none none none none (some owned)
    | .BlankNode s => .mk .BlankNode s pred .Triple v none none none none (some owned)

/-- Model of `triple_to_owned` (src/parser/common.rs lines 13-88). -/
def triple_to_owned (t : Triple) : OwnedTriple :=
  triple_to_owned_core t.subject t.predicate t.object

/-- Field update mirroring `owned_triple.graph = Some(...)` in
src/parser/common.rs lines 107-118. -/
def OwnedTriple.withGraph : OwnedTriple → Option String → OwnedTriple
  | .mk st sv p ot ov od ol _ strp otrp, g => .mk st sv p ot ov od ol g strp otrp

/-- Model of `quad_to_owned` (src/parser/common.rs lines 98-121). -/
def quad_to_owned (q : Quad) : OwnedTriple :=
  let owned := triple_to_owned ⟨q.subject, q.predicate, q.object⟩
  match q.graph_name with
  | .NamedNode g => owned.withGraph (some g)
  | .BlankNode g => owned.withGraph (some g)
  | .DefaultGraph => owned

/-- The data-model invariant of spec section 3 for one `OwnedTriple`,
checked recursively through the embedded triples: language and datatype are
never both set, and an embedded-triple type in subject (resp. object)
position holds exactly when the corresponding embedded pointer is `some`. -/
def tripleInvariant : OwnedTriple → Bool
  | .mk st _ _ ot _ od ol _ strp otrp =>
    (!(ol.isSome && od.isSome))
    && (decide (st = SubjectType.Triple) == strp.isSome)
    && (decide (ot = ObjectType.Triple) == otrp.isSome)
    && (match strp with | some t => tripleInvariant t | none => true)
    && (match otrp with | some t => tripleInvariant t | none => true)

theorem tripleInvariant_core (subj : NamedOrBlankNode) (pred : String) (obj : Term) :
    tripleInvariant (triple_to_owned_core subj pred obj) = true := by
  induction obj generalizing subj pred with
  | NamedNode n => cases subj <;> rfl
  | BlankNode n => cases subj <;> rfl
  | Literal lit =>
    cases subj <;>
      (cases hl : lit.language <;>
        simp [triple_to_owned_core, tripleInvariant, hl] <;>
        by_cases hd : lit.datatype = xsdString <;>
        simp [hd])
  | Triple es ep eo ih =>
    cases subj <;> simp [triple_to_owned_core, tripleInvariant, ih]

theorem tripleInvariant_withGraph (t : OwnedTriple) (g : Option String) :
    tripleInvariant (t.withGraph g) = tripleInvariant t := by
  cases t
  unfold tripleInvariant OwnedTriple.withGraph
  rfl

/-- Concrete RDF-star triple (embedded triple in object position). -/
def tStar : Triple :=
  ⟨.NamedNode "http://s", "http://p",
   .Triple (.NamedNode "http://es") "http://ep" (.Literal ⟨"v", none, xsdString⟩)⟩

/-- Concrete quad in a named graph. -/
def qStar : Quad :=
  ⟨.NamedNode "http://s", "http://p", .Literal ⟨"5", none,
   "http://www.w3.org/2001/XMLSchema#integer"⟩, .NamedNode "http://g"⟩

/-- C9: every `OwnedTriple` produced by the format adapter
(`triple_to_owned` / `quad_to_owned`) satisfies the data-model invariant
(language and datatype never both set; embedded-triple type iff embedded
pointer present, in subject and object position, recursively), and
filtering a list of invariant-satisfying triples yields only
invariant-satisfying triples. -/
theorem C9_adapter_invariant :
    (∀ t : Triple, tripleInvariant (triple_to_owned t) = true)
    ∧ (∀ q : Quad, tripleInvariant (quad_to_owned q) = true)
    ∧ ∀ (f : TripleFilter) (ts : List OwnedTriple) (pm : List (String × String)),
        (∀ t ∈ ts, tripleInvariant t = true) →
        ∀ t ∈ TripleFilter.filter_triples f ts pm, tripleInvariant t = true := by
  refine ⟨fun t => tripleInvariant_core t.subject t.predicate t.object, fun q => ?_, ?_⟩
  · unfold quad_to_owned
    cases q.graph_name <;>
      simp [tripleInvariant_withGraph, triple_to_owned, tripleInvariant_core]
  · intro f ts pm hts t ht
    unfold TripleFilter.filter_triples at ht
    by_cases he : f.is_empty = true
    · rw [if_pos he] at ht; exact hts t ht
    · rw [if_neg he] at ht
      exact hts t (List.mem_of_mem_filter ht)

/-- C9 witness: the invariant at a concrete RDF-star triple, a concrete
named-graph quad, and a concrete filtered list. -/
theorem C9_adapter_invariant_witness :
    tripleInvariant (triple_to_owned tStar) = true
    ∧ tripleInvariant (quad_to_owned qStar) = true
    ∧ ∀ t ∈ TripleFilter.filter_triples ⟨none, none, none⟩ [triple_to_owned tStar] [],
        tripleInvariant t = true := by
  obtain ⟨h1, h2, h3⟩ := C9_adapter_invariant
  exact ⟨h1 tStar, h2 qStar,
    h3 ⟨none, none, none⟩ [triple_to_owned tStar] []
      (by intro t ht; rw [List.mem_singleton.mp ht]; exact h1 tStar)⟩

/-! Section: Renderer: src/utils.rs and src/formatter/writer.rs -/

/-- Iteration core of `resolve_uri_with_prefixes` (src/utils.rs lines 10-24):
first map entry whose namespace IRI is a prefix of the URI wins. -/
def resolveLoop (uri : String) : List (String × String) → String
  | [] => "<" ++ uri ++ ">"
  | (p, iri) :: rest =>
    if strStarts uri iri then p ++ ":" ++ String.mk (uri.data.drop iri.data.length)
    else resolveLoop uri rest

/-- Model of `resolve_uri_with_prefixes` (src/utils.rs lines 10-24). -/
def resolve_uri_with_prefixes (uri : String) : Option (List (String × String)) → String
  | some pm => resolveLoop uri pm
  | none => "<" ++ uri ++ ">"

/-- Model of the color resolver consumed by the renderer (spec section 6):
`colorize text role` stands for `text.color(colors.get_color(role))` and
`colorize_bold` for the bold variant.  Color resolution itself is an
external collaborator, so both are abstract functions. -/
structure ColorConfig where
  colorize : String → String → String
  colorize_bold : String → String → String

/-- A ColorConfig that adds no ANSI escapes (colors disabled). -/
def idColors : ColorConfig := ⟨fun text _ => text, fun text _ => text⟩

/-- The Rust `match` being modelled is non-exhaustive over the snapshot's
`SubjectType`/`ObjectType` (it predates the RDF-star variants); this marker
stands for the missing arm, which no claim exercises. -/
def unmatchedArm : String := ""

/-- Model of `format_subject` (src/formatter/writer.rs lines 14-25). -/
def format_subject (t : OwnedTriple) (prefixes : Option (List (String × String)))
    (_colors : ColorConfig) : String :=
  match t.subject_type with
  | .NamedNode => resolve_uri_with_prefixes t.subject_value prefixes
  | .BlankNode => "_:" ++ t.subject_value
  | .Triple => unmatchedArm

/-- Model of `format_predicate` (src/formatter/writer.rs lines 28-36). -/
def format_predicate (t : OwnedTriple) (prefixes : Option (List (String × String)))
    (colors : ColorConfig) : String :=
  colors.colorize (resolve_uri_with_prefixes t.predicate prefixes) "predicate"

def xsdIntegerIri : String := "http://www.w3.org/2001/XMLSchema#integer"

def xsdBooleanIri : String := "http://www.w3.org/2001/XMLSchema#boolean"

def xsdDateIri : String := "http://www.w3.org/2001/XMLSchema#date"

/-- The `is_basic_datatype` `matches!` list of src/formatter/writer.rs
lines 64-75. -/
def is_basic_datatype (d : String) : Bool :=
  d = xsdIntegerIri
  || d = "http://www.w3.org/2001/XMLSchema#string"
  || d = xsdBooleanIri
  || d = "http://www.w3.org/2001/XMLSchema#decimal"
  || d = "http://www.w3.org/2001/XMLSchema#float"
  || d = "http://www.w3.org/2001/XMLSchema#double"
  || d = xsdDateIri
  || d = "http://www.w3.org/2001/XMLSchema#time"
  || d = "http://www.w3.org/2001/XMLSchema#dateTime"

/-- The numeric-datatypes arm of the inner `match` of src/formatter/writer.rs
lines 79-86. -/
def is_numeric_datatype (d : String) : Bool :=
  d = xsdIntegerIri
  || d = "http://www.w3.org/2001/XMLSchema#decimal"
  || d = "http://www.w3.org/2001/XMLSchema#float"
  || d = "http://www.w3.org/2001/XMLSchema#double"

/-- Model of `format_object` (src/formatter/writer.rs lines 39-112). -/
def format_object (t : OwnedTriple) (prefixes : Option (List (String × String)))
    (colors : ColorConfig) : String :=
  match t.object_type with
  | .NamedNode => colors.colorize (resolve_uri_with_prefixes t.object_value prefixes) "object"
  | .BlankNode => colors.colorize ("_:" ++ t.object_value) "object"
  | .Literal =>
    match t.object_language with
    | some language => colors.colorize ("\"" ++ t.object_value ++ "\"@" ++ language) "literal"
    | none =>
      match t.object_datatype with
      | some datatype =>
        let is_compact_mode := prefixes.isSome
        if is_compact_mode && is_basic_datatype datatype then
          if is_numeric_datatype datatype then colors.colorize t.object_value "literal"
          else if datatype = xsdBooleanIri then colors.colorize t.object_value "literal"
          else colors.colorize ("\"" ++ t.object_value ++ "\"") "literal"
        else
          colors.colorize
            ("\"" ++ t.object_value ++ "\"^^" ++ resolve_uri_with_prefixes datatype prefixes)
            "literal"
      | none => colors.colorize ("\"" ++ t.object_value ++ "\"") "literal"
  | .Triple => unmatchedArm

/-- Concrete typed literal with datatype `xsd:date`. -/
def tDateLit : OwnedTriple :=
  .mk .NamedNode "http://s" "http://p" .Literal "2020-01-01" (some xsdDateIri) none none none none

/-- C7 counterexample: in compact mode a typed literal with the (non-numeric,
non-boolean) datatype `xsd:date` renders merely quoted, WITHOUT the
`^^type` suffix the claim requires for "every other datatype, including
date/time". -/
theorem C7_typed_literal_counterexample :
    format_object tDateLit (some []) idColors = "\"2020-01-01\""
    ∧ format_object tDateLit (some []) idColors
        ≠ "\"2020-01-01\"^^<http://www.w3.org/2001/XMLSchema#date>" := by
  refine ⟨rfl, ?_⟩
  intro h
  rw [show format_object tDateLit (some []) idColors = "\"2020-01-01\"" from rfl] at h
  simp at h

/-- C7 as amended.  For a typed literal (no language tag) with datatype `dt`
and value `v`:
in compact mode (prefixes supplied) the numeric datatypes
integer/decimal/float/double and boolean render bare (no quotes, no
suffix); the remaining "basic" datatypes — string, date, time, dateTime —
render quoted WITHOUT any datatype suffix; non-basic datatypes render
quoted with a `^^` suffix whose datatype is resolved against the prefix
map (full `<iri>` form only when no prefix matches);
in expanded mode every typed literal renders quoted with the full
`^^<iri>` suffix.  In particular an `xsd:integer` literal `30` renders
`30` in compact mode and `"30"^^<http://www.w3.org/2001/XMLSchema#integer>`
in expanded mode (witness). -/
theorem C7_typed_literal_amended (cc : ColorConfig) (pm : List (String × String))
    (st : SubjectType) (sv p v dt : String) (g : Option String)
    (strp otrp : Option OwnedTriple) :
    let t : OwnedTriple := .mk st sv p .Literal v (some dt) none g strp otrp
    ((is_numeric_datatype dt || (dt == xsdBooleanIri)) = true →
        format_object t (some pm) cc = cc.colorize v "literal")
    ∧ (is_basic_datatype dt = true → (is_numeric_datatype dt || (dt == xsdBooleanIri)) = false →
        format_object t (some pm) cc = cc.colorize ("\"" ++ v ++ "\"") "literal")
    ∧ (is_basic_datatype dt = false →
        format_object t (some pm) cc
          = cc.colorize ("\"" ++ v ++ "\"^^" ++ resolveLoop dt pm) "literal")
    ∧ format_object t none cc
        = cc.colorize ("\"" ++ v ++ "\"^^" ++ ("<" ++ dt ++ ">")) "literal" := by
  intro t
  have hnb : ∀ d : String, is_numeric_datatype d = true → is_basic_datatype d = true := by
    intro d hd
    simp only [is_numeric_datatype, Bool.or_eq_true, decide_eq_true_eq] at hd
    simp only [is_basic_datatype, Bool.or_eq_true, decide_eq_true_eq]
    tauto
  refine ⟨?_, ?_, ?_, ?_⟩
  · intro h
    rw [Bool.or_eq_true] at h
    rcases h with h | h
    · simp [t, format_object, OwnedTriple.object_type, OwnedTriple.object_language,
        OwnedTriple.object_datatype, OwnedTriple.object_value, hnb dt h, h]
    · have hdt : dt = xsdBooleanIri := by simpa using h
      subst hdt
      simp [t, format_object, OwnedTriple.object_type, OwnedTriple.object_language,
        OwnedTriple.object_datatype, OwnedTriple.object_value, is_basic_datatype,
        is_numeric_datatype, xsdBooleanIri, xsdIntegerIri]
  · intro hb hnum
    rw [Bool.or_eq_false_iff] at hnum
    simp [t, format_object, OwnedTriple.object_type, OwnedTriple.object_language,
      OwnedTriple.object_datatype, OwnedTriple.object_value, hb, hnum.1,
      show (dt = xsdBooleanIri) = False by simpa using hnum.2]
  · intro hb
    simp [t, format_object, OwnedTriple.object_type, OwnedTriple.object_language,
      OwnedTriple.object_datatype, OwnedTriple.object_value, hb,
      resolve_uri_with_prefixes]
  · simp [t, format_object, OwnedTriple.object_type, OwnedTriple.object_language,
      OwnedTriple.object_datatype, OwnedTriple.object_value, resolve_uri_with_prefixes]

/-- C7 witness: the amended claim at `xsd:integer` value `30` with colors
disabled — `30` in compact mode, full suffix in expanded mode. -/
theorem C7_typed_literal_amended_witness :
    format_object (.mk .NamedNode "http://s" "http://p" .Literal "30"
        (some xsdIntegerIri) none none none none) (some []) idColors = "30"
    ∧ format_object (.mk .NamedNode "http://s" "http://p" .Literal "30"
        (some xsdIntegerIri) none none none none) none idColors
        = "\"30\"^^<http://www.w3.org/2001/XMLSchema#integer>" := by
  have h := C7_typed_literal_amended idColors [] .NamedNode "http://s" "http://p" "30"
    xsdIntegerIri none none none
  exact ⟨h.1 (by decide), h.2.2.2⟩

/-! Section: Block renderers: src/formatter/expanded.rs and compact.rs.
Each `writeln!` is one element of the produced line list. -/

mutual

/-- Inner skip loop of `strip_ansi_codes` (src/formatter/compact.rs lines
23-30): after an escape byte, drop characters through the terminating `m`. -/
def stripAnsiSkip : List Char → List Char → List Char
  | acc, [] => acc.reverse
  | acc, c :: cs => if c = 'm' then stripAnsiGo acc cs else stripAnsiSkip acc cs

/-- Model of `strip_ansi_codes` (src/formatter/compact.rs lines 18-36). -/
def stripAnsiGo : List Char → List Char → List Char
  | acc, [] => acc.reverse
  | acc, c :: cs => if c = '\x1b' then stripAnsiSkip acc cs else stripAnsiGo (c :: acc) cs

end

/-- Model of `strip_ansi_codes` on `String`; its Rust `len()` is byte length,
which equals the char count on the ASCII data considered here. -/
def strip_ansi_codes (s : String) : String := String.mk (stripAnsiGo [] s.data)

/-- First-occurrence list of the graph keys of a triple list: the key set of
the `graph_groups` HashMap built in compact.rs lines 69-76 / expanded.rs
lines 25-32. -/
def graphKeysIn (ts : List OwnedTriple) : List (Option String) :=
  ts.foldl (fun acc t => if t.graph ∈ acc then acc else acc ++ [t.graph]) []

/-- The comparator of `graph_keys.sort_by` (compact.rs lines 80-85 /
expanded.rs lines 36-41): `None` (default graph) first, then named graphs
in ascending lexicographic IRI order. -/
def keyLE : Option String → Option String → Bool
  | none, _ => true
  | some _, none => false
  | some a, some b => decide (a ≤ b)

def insertKey (k : Option String) : List (Option String) → List (Option String)
  | [] => [k]
  | k' :: rest => if keyLE k k' then k :: k' :: rest else k' :: insertKey k rest

/-- Stable sort of the graph keys by `keyLE` (model of `sort_by`). -/
def sortKeys : List (Option String) → List (Option String)
  | [] => []
  | k :: rest => insertKey k (sortKeys rest)

def sortedGraphKeys (ts : List OwnedTriple) : List (Option String) :=
  sortKeys (graphKeysIn ts)

/-- The bucket of one graph key, in encounter order (the `Vec` pushed per
key in the grouping loop). -/
def bucketOf (ts : List OwnedTriple) (g : Option String) : List OwnedTriple :=
  ts.filter (fun t => decide (t.graph = g))

/-- The subject-grouping loop of expanded.rs lines 58-101, as a function
from the running `current_subject` to the emitted lines. -/
def expandedSubjectLoop (pm : Option (List (String × String))) (cc : ColorConfig)
    (indent : String) : Option String → List OwnedTriple → List String
  | _, [] => []
  | cur, t :: rest =>
    let subject := format_subject t pm cc
    let predicate := format_predicate t pm cc
    let object := format_object t pm cc
    let pairLines := [indent ++ "    " ++ predicate ++ " ;",
                      indent ++ "        " ++ object ++ " ."]
    let chunk :=
      match cur with
      | some current =>
        if current = subject then pairLines
        else [""] ++ [indent ++ cc.colorize_bold subject "subject"] ++ pairLines
      | none => [indent ++ cc.colorize_bold subject "subject"] ++ pairLines
    chunk ++ expandedSubjectLoop pm cc indent (some subject) rest

/-- One graph bucket of expanded `print_triples_to_writer`
(src/formatter/expanded.rs lines 44-108). -/
def expandedGraphBlock (ts : List OwnedTriple) (pm : Option (List (String × String)))
    (cc : ColorConfig) (g : Option String) : List String :=
  let indent := if g.isSome then "  " else ""
  (match g with
   | some graph_name =>
     [cc.colorize_bold (resolve_uri_with_prefixes graph_name pm) "graph" ++ " \x7b"]
   | none => [])
  ++ expandedSubjectLoop pm cc indent none (bucketOf ts g)
  ++ (if g.isSome then ["\x7d", ""] else [])

/-- Model of expanded-mode `print_triples_to_writer`
(src/formatter/expanded.rs lines 18-111), as the list of written lines. -/
def expandedPrintTriples (ts : List OwnedTriple) (pm : Option (List (String × String)))
    (cc : ColorConfig) : List String :=
  (sortedGraphKeys ts).foldr (fun g acc => expandedGraphBlock ts pm cc g ++ acc) []

/-- The subject-grouping loop of compact.rs lines 97-168: `width` is the
detected terminal width, `graphIsNone` tells whether the enclosing bucket is
the default graph (which controls the blank separator line). -/
def compactSubjectLoop (pm : Option (List (String × String))) (cc : ColorConfig)
    (indent : String) (width : Nat) (graphIsNone : Bool) :
    Option String → List OwnedTriple → List String
  | _, [] => []
  | cur, t :: rest =>
    let subject := format_subject t pm cc
    let predicate := format_predicate t pm cc
    let object := format_object t pm cc
    match cur with
    | some current =>
      if current = subject then
        let predicate_line := indent ++ "    " ++ predicate
        let object_part := " " ++ object ++ " ."
        let full_line := predicate_line ++ object_part
        (if (strip_ansi_codes full_line).data.length ≤ width then [full_line]
         else [predicate_line ++ " ;", indent ++ "        " ++ object ++ " ."])
        ++ compactSubjectLoop pm cc indent width graphIsNone cur rest
      else
        let subject_colored := cc.colorize subject "subject"
        let subject_line := indent ++ subject_colored ++ " " ++ predicate
        let object_part := " " ++ object ++ " ."
        let full_line := subject_line ++ object_part
        (if graphIsNone then [""] else [])
        ++ (if (strip_ansi_codes full_line).data.length ≤ width then [full_line]
            else [subject_line ++ " ;", indent ++ "    " ++ object ++ " ."])
        ++ compactSubjectLoop pm cc indent width graphIsNone (some subject) rest
    | none =>
      let subject_colored := cc.colorize subject "subject"
      let subject_line := indent ++ subject_colored ++ " " ++ predicate
      let object_part := " " ++ object ++ " ."
      let full_line := subject_line ++ object_part
      (if (strip_ansi_codes full_line).data.length ≤ width then [full_line]
       else [subject_line ++ " ;", indent ++ "    " ++ object ++ " ."])
      ++ compactSubjectLoop pm cc indent width graphIsNone (some subject) rest

/-- One graph bucket of compact `print_triples_to_writer`
(src/formatter/compact.rs lines 88-175). -/
def compactGraphBlock (ts : List OwnedTriple) (pm : Option (List (String × String)))
    (cc : ColorConfig) (width : Nat) (g : Option String) : List String :=
  let indent := if g.isSome then "  " else ""
  (match g with
   | some graph_name =>
     [cc.colorize (resolve_uri_with_prefixes graph_name pm) "graph" ++ " \x7b"]
   | none => [])
  ++ compactSubjectLoop pm cc indent width g.isNone none (bucketOf ts g)
  ++ (if g.isSome then ["\x7d", ""] else [])

/-- Model of compact-mode `print_triples_to_writer`
(src/formatter/compact.rs lines 62-178), as the list of written lines. -/
def compactPrintTriples (ts : List OwnedTriple) (pm : Option (List (String × String)))
    (cc : ColorConfig) (width : Nat) : List String :=
  (sortedGraphKeys ts).foldr (fun g acc => compactGraphBlock ts pm cc width g ++ acc) []

/-- Two triples sharing one subject in the default graph. -/
def tPair1 : OwnedTriple :=
  .mk .NamedNode "http://s" "http://p1" .Literal "o1" none none none none none

def tPair2 : OwnedTriple :=
  .mk .NamedNode "http://s" "http://p2" .Literal "o2" none none none none none

theorem foldl_keys_none (ts : List OwnedTriple) (acc : List (Option String))
    (h : ∀ t ∈ ts, t.graph = none) (hacc : none ∈ acc) :
    ts.foldl (fun acc t => if t.graph ∈ acc then acc else acc ++ [t.graph]) acc = acc := by
  induction ts generalizing acc with
  | nil => rfl
  | cons t ts ih =>
    rw [List.foldl_cons, if_pos (by rw [h t (by simp)]; exact hacc)]
    exact ih acc (fun t' ht' => h t' (by simp [ht'])) hacc

theorem graphKeysIn_all_none (ts : List OwnedTriple)
    (h : ∀ t ∈ ts, t.graph = none) (hne : ts ≠ []) :
    graphKeysIn ts = [none] := by
  cases ts with
  | nil => simp at hne
  | cons t ts =>
    unfold graphKeysIn
    rw [List.foldl_cons, if_neg (by simp), h t (by simp)]
    exact foldl_keys_none ts ([] ++ [none]) (fun t' ht' => h t' (by simp [ht'])) (by simp)

/-- C8 counterexample: rendering two same-subject triples in expanded mode
(colors disabled), the first — non-final — predicate-object pair terminates
with `.` (its object line ends in " .", not ";"), and the final pair's
predicate line carries a `;`; the claim requires non-final pairs to end in
`;` and only the final pair to end in `.`. -/
theorem C8_pair_terminators_counterexample :
    expandedPrintTriples [tPair1, tPair2] none idColors
      = ["<http://s>", "    <http://p1> ;", "        \"o1\" .",
         "    <http://p2> ;", "        \"o2\" ."]
    ∧ strEnds "        \"o1\" ." ";" = false
    ∧ strEnds "        \"o1\" ." "." = true
    ∧ strEnds "    <http://p2> ;" ";" = true := by
  exact ⟨rfl, by decide, by decide, by decide⟩

/-- C8 as amended.  In every subject block, EVERY predicate-object pair —
the final one included — terminates with `.`:
(a) for an all-default-graph triple list, expanded rendering is exactly the
subject loop;
(b) in the expanded subject loop, every triple emits a predicate line
ending in " ;" followed by an object line ending in " ." — also for the
final pair — after a (possibly empty) blank/subject-line preamble;
(c) in the compact subject loop, every triple emits either one full line
ending in " ." or a `;`-terminated first line followed by an object line
ending in " ."; no pair is terminated by a bare `;`. -/
theorem C8_pair_terminators_amended :
    (∀ (pm : Option (List (String × String))) (cc : ColorConfig) (ts : List OwnedTriple),
        (∀ t ∈ ts, t.graph = none) → ts ≠ [] →
        expandedPrintTriples ts pm cc = expandedSubjectLoop pm cc "" none ts)
    ∧ (∀ pm cc indent cur t rest, ∃ pre,
        expandedSubjectLoop pm cc indent cur (t :: rest)
          = pre ++ [indent ++ "    " ++ format_predicate t pm cc ++ " ;",
                    indent ++ "        " ++ format_object t pm cc ++ " ."]
            ++ expandedSubjectLoop pm cc indent (some (format_subject t pm cc)) rest)
    ∧ (∀ pm cc indent width gin cur t rest, ∃ pre ls nxt,
        compactSubjectLoop pm cc indent width gin cur (t :: rest)
          = pre ++ ls ++ compactSubjectLoop pm cc indent width gin nxt rest
        ∧ ((∃ l, ls = [l ++ " ."]) ∨ ∃ l₁ l₂, ls = [l₁ ++ " ;", l₂ ++ " ."])) := by
  refine ⟨?_, ?_, ?_⟩
  · intro pm cc ts h hne
    unfold expandedPrintTriples sortedGraphKeys
    rw [graphKeysIn_all_none ts h hne]
    show expandedGraphBlock ts pm cc none ++ [] = _
    unfold expandedGraphBlock
    rw [show bucketOf ts none = ts from
      List.filter_eq_self.mpr (fun t ht => by simp [h t ht])]
    simp
  · intro pm cc indent cur t rest
    cases cur with
    | none =>
      exact ⟨[indent ++ cc.colorize_bold (format_subject t pm cc) "subject"], by
        simp [expandedSubjectLoop]⟩
    | some current =>
      by_cases hcur : current = format_subject t pm cc
      · exact ⟨[], by simp [expandedSubjectLoop, hcur]⟩
      · exact ⟨[""] ++ [indent ++ cc.colorize_bold (format_subject t pm cc) "subject"], by
          simp [expandedSubjectLoop, hcur]⟩
  · intro pm cc indent width gin cur t rest
    cases cur with
    | none =>
      by_cases hfit :
          (strip_ansi_codes ((indent ++ cc.colorize (format_subject t pm cc) "subject"
            ++ " " ++ format_predicate t pm cc)
            ++ (" " ++ format_object t pm cc ++ " ."))).data.length ≤ width
      · refine ⟨[], [(indent ++ cc.colorize (format_subject t pm cc) "subject"
            ++ " " ++ format_predicate t pm cc ++ " " ++ format_object t pm cc) ++ " ."],
          some (format_subject t pm cc), ?_, Or.inl ⟨_, rfl⟩⟩
        simp only [compactSubjectLoop, hfit, if_pos, List.nil_append]
        simp [String.append_assoc]
      · refine ⟨[], [(indent ++ cc.colorize (format_subject t pm cc) "subject"
            ++ " " ++ format_predicate t pm cc) ++ " ;",
            (indent ++ "    " ++ format_object t pm cc) ++ " ."],
          some (format_subject t pm cc), ?_, Or.inr ⟨_, _, rfl⟩⟩
        simp only [compactSubjectLoop, hfit, if_neg, List.nil_append]
        simp [String.append_assoc]
    | some current =>
      by_cases hcur : current = format_subject t pm cc
      · by_cases hfit :
            (strip_ansi_codes ((indent ++ "    " ++ format_predicate t pm cc)
              ++ (" " ++ format_object t pm cc ++ " ."))).data.length ≤ width
        · refine ⟨[], [(indent ++ "    " ++ format_predicate t pm cc
              ++ " " ++ format_object t pm cc) ++ " ."], some current, ?_, Or.inl ⟨_, rfl⟩⟩
          simp only [compactSubjectLoop, hcur, if_pos, hfit]
          simp [String.append_assoc, hcur]
        · refine ⟨[], [(indent ++ "    " ++ format_predicate t pm cc) ++ " ;",
              (indent ++ "        " ++ format_object t pm cc) ++ " ."],
            some current, ?_, Or.inr ⟨_, _, rfl⟩⟩
          simp only [compactSubjectLoop, hcur, hfit]
          simp [String.append_assoc, hcur]
      · by_cases hfit :
            (strip_ansi_codes ((indent ++ cc.colorize (format_subject t pm cc) "subject"
              ++ " " ++ format_predicate t pm cc)
              ++ (" " ++ format_object t pm cc ++ " ."))).data.length ≤ width
        · refine ⟨(if gin then [""] else []),
            [(indent ++ cc.colorize (format_subject t pm cc) "subject"
              ++ " " ++ format_predicate t pm cc ++ " " ++ format_object t pm cc) ++ " ."],
            some (format_subject t pm cc), ?_, Or.inl ⟨_, rfl⟩⟩
          simp only [compactSubjectLoop, hcur, hfit]
          simp [String.append_assoc, hcur]
        · refine ⟨(if gin then [""] else []),
            [(indent ++ cc.colorize (format_subject t pm cc) "subject"
              ++ " " ++ format_predicate t pm cc) ++ " ;",
              (indent ++ "    " ++ format_object t pm cc) ++ " ."],
            some (format_subject t pm cc), ?_, Or.inr ⟨_, _, rfl⟩⟩
          simp only [compactSubjectLoop, hcur, hfit]
          simp [String.append_assoc, hcur]

/-- C8 witness: the amended claim instantiated at one concrete
default-graph triple. -/
theorem C8_pair_terminators_amended_witness :
    expandedPrintTriples [tPair1] none idColors
      = expandedSubjectLoop none idColors "" none [tPair1] := by
  obtain ⟨ha, _, _⟩ := C8_pair_terminators_amended
  exact ha none idColors [tPair1]
    (by intro t ht; rw [List.mem_singleton.mp ht]; rfl) (by simp)

/-! Section: recovery engine, src/parser/robust.rs.
The strict single-fragment parsers (oxttl) are external collaborators
(spec sections 1 and 6); the line-by-line recovery loops are parametrized
by an oracle standing for `try_parse_turtle_fragment` /
`try_parse_trig_fragment` / `try_parse_ntriples_line`.  The input stream is
given as its list of physical lines (`BufReader::lines()`), none of which
contains a newline. -/

/-- Model of `ParseError` (src/parser/robust.rs lines 26-31). -/
structure ParseError where
  line : Nat
  position : Nat
  message : String
deriving DecidableEq, Repr

/-- Model of `ParseResult` (src/parser/robust.rs lines 19-24). -/
structure ParseResult where
  triples : List OwnedTriple
  prefixes : List (String × String)
  errors : List ParseError

/-- Model of `ParseResult::new`. -/
def ParseResult.new : ParseResult := ⟨[], [], []⟩

/-- Model of `ParseResult::has_errors`. -/
def ParseResult.has_errors (r : ParseResult) : Bool := !r.errors.isEmpty

/-- Model of `ParseResult::error_count`. -/
def ParseResult.error_count (r : ParseResult) : Nat := r.errors.length

/-- Model of `ParseResult::triple_count`. -/
def ParseResult.triple_count (r : ParseResult) : Nat := r.triples.length

/-- The skip test `trimmed.is_empty() || trimmed.starts_with('#')` used by
every recovery loop. -/
def skipLine (l : String) : Bool :=
  (trimChars l.data).isEmpty || ((trimChars l.data).head? == some '#')

/-- The test `trimmed.starts_with("@prefix")` of the Turtle/TriG loops. -/
def isPrefixDeclLine (l : String) : Bool :=
  strStarts (strTrim l) "@prefix"

/-- The statement-boundary test `trimmed.ends_with('.')`. -/
def endsWithDot (l : String) : Bool :=
  (trimChars l.data).getLast? == some '.'

/-- Oracle type of `try_parse_turtle_fragment` / `try_parse_trig_fragment`
(src/parser/robust.rs lines 14-17): triples plus discovered prefixes, or a
syntax error message. -/
abbrev FragmentOracle := String → Except String (List OwnedTriple × List (String × String))

/-- Oracle type of `try_parse_ntriples_line` / `try_parse_nquads_line`. -/
abbrev LineOracle := String → Except String OwnedTriple

/-- Pass 1 of `parse_turtle_line_by_line` (src/parser/robust.rs lines
98-106): collect the lines whose trimmed form starts with `@prefix`, each
followed by a newline. -/
def prefixDeclarations (lines : List String) : String :=
  lines.foldl (fun acc l => if isPrefixDeclLine l then acc ++ l ++ "\n" else acc) ""

/-- Pass 2 of `parse_turtle_line_by_line` (src/parser/robust.rs lines
108-150): `i` is the 0-based index of the next line, `buf` the accumulated
`current_statement`; returns the result so far and the final buffer. -/
def turtleLoop (or' : FragmentOracle) (decls : String) :
    Nat → ParseResult → String → List String → ParseResult × String
  | _, r, buf, [] => (r, buf)
  | i, r, buf, l :: ls =>
    if skipLine l then turtleLoop or' decls (i + 1) r buf ls
    else if isPrefixDeclLine l then turtleLoop or' decls (i + 1) r buf ls
    else
      let buf' := buf ++ l ++ "\n"
      if endsWithDot l then
        match or' (decls ++ "\n" ++ buf') with
        | .ok (ts, ps) =>
          turtleLoop or' decls (i + 1)
            ⟨r.triples ++ ts, pmInsertAll r.prefixes ps, r.errors⟩ "" ls
        | .error e =>
          turtleLoop or' decls (i + 1)
            ⟨r.triples, r.prefixes, r.errors ++ [⟨i + 1, 1, "Parse error: " ++ e⟩]⟩ "" ls
      else turtleLoop or' decls (i + 1) r buf' ls

/-- Model of `parse_turtle_line_by_line` (src/parser/robust.rs lines
94-165), with the trailing-buffer attempt of lines 152-162. -/
def parse_turtle_line_by_line (or' : FragmentOracle) (lines : List String) : ParseResult :=
  let decls := prefixDeclarations lines
  let res := turtleLoop or' decls 0 ParseResult.new "" lines
  if (trimChars res.2.data).isEmpty then res.1
  else
    match or' (decls ++ "\n" ++ res.2) with
    | .ok _ => res.1
    | .error e =>
      ⟨res.1.triples, res.1.prefixes,
       res.1.errors ++ [⟨lines.length, 1, "Parse error in final statement: " ++ e⟩]⟩

def lbraceChar : Char := Char.ofNat 123

def rbraceChar : Char := Char.ofNat 125

/-- Pass 2 of `parse_trig_line_by_line` (src/parser/robust.rs lines
233-280): like the Turtle loop plus the brace-depth counter updated from
the trimmed line before the boundary test `trimmed.ends_with('.') ||
(trimmed.ends_with(rbrace) && brace_depth == 0)`. -/
def trigLoop (or' : FragmentOracle) (decls : String) :
    Nat → Int → ParseResult → String → List String → ParseResult × String
  | _, _, r, buf, [] => (r, buf)
  | i, depth, r, buf, l :: ls =>
    if skipLine l then trigLoop or' decls (i + 1) depth r buf ls
    else if isPrefixDeclLine l then trigLoop or' decls (i + 1) depth r buf ls
    else
      let buf' := buf ++ l ++ "\n"
      let tcs := trimChars l.data
      let depth' := depth + ((tcs.filter (· = lbraceChar)).length : Int)
        - ((tcs.filter (· = rbraceChar)).length : Int)
      if endsWithDot l || ((tcs.getLast? == some rbraceChar) && depth' = 0) then
        match or' (decls ++ "\n" ++ buf') with
        | .ok (ts, ps) =>
          trigLoop or' decls (i + 1) depth'
            ⟨r.triples ++ ts, pmInsertAll r.prefixes ps, r.errors⟩ "" ls
        | .error e =>
          trigLoop or' decls (i + 1) depth'
            ⟨r.triples, r.prefixes, r.errors ++ [⟨i + 1, 1, "Parse error: " ++ e⟩]⟩ "" ls
      else trigLoop or' decls (i + 1) depth' r buf' ls

/-- Model of `parse_trig_line_by_line` (src/parser/robust.rs lines 219-295),
with the trailing-buffer attempt of lines 282-292. -/
def parse_trig_line_by_line (or' : FragmentOracle) (lines : List String) : ParseResult :=
  let decls := prefixDeclarations lines
  let res := trigLoop or' decls 0 0 ParseResult.new "" lines
  if (trimChars res.2.data).isEmpty then res.1
  else
    match or' (decls ++ "\n" ++ res.2) with
    | .ok _ => res.1
    | .error e =>
      ⟨res.1.triples, res.1.prefixes,
       res.1.errors ++ [⟨lines.length, 1, "Parse error in final statement: " ++ e⟩]⟩

/-- The loop of `parse_ntriples_line_by_line` (src/parser/robust.rs lines
347-369); `parse_nquads_line_by_line` (lines 414-443) is the same function
with its oracle standing for `try_parse_nquads_line`. -/
def ntriplesLoop (or' : LineOracle) : Nat → ParseResult → List String → ParseResult
  | _, r, [] => r
  | i, r, l :: ls =>
    if skipLine l then ntriplesLoop or' (i + 1) r ls
    else
      match or' l with
      | .ok t => ntriplesLoop or' (i + 1) ⟨r.triples ++ [t], r.prefixes, r.errors⟩ ls
      | .error e =>
        ntriplesLoop or' (i + 1)
          ⟨r.triples, r.prefixes, r.errors ++ [⟨i + 1, 1, "Parse error: " ++ e⟩]⟩ ls

/-- Model of `parse_ntriples_line_by_line` (src/parser/robust.rs lines
343-372). -/
def parse_ntriples_line_by_line (or' : LineOracle) (lines : List String) : ParseResult :=
  ntriplesLoop or' 0 ParseResult.new lines

/-- Specification of the error list produced by the N-Triples loop starting
at 0-based line index `i`: one `ParseError` per non-skipped line the oracle
rejects, at that line's 1-based number. -/
def ntErrorsOf (or' : LineOracle) : Nat → List String → List ParseError
  | _, [] => []
  | i, l :: ls =>
    (if skipLine l then []
     else
       match or' l with
       | .ok _ => []
       | .error e => [⟨i + 1, 1, "Parse error: " ++ e⟩])
    ++ ntErrorsOf or' (i + 1) ls

theorem ntriplesLoop_eq (or' : LineOracle) (ls : List String) :
    ∀ (i : Nat) (r : ParseResult),
      ntriplesLoop or' i r ls
        = ⟨r.triples ++ ls.filterMap (fun l => if skipLine l then none else (or' l).toOption),
           r.prefixes, r.errors ++ ntErrorsOf or' i ls⟩ := by
  induction ls with
  | nil => intro i r; simp [ntriplesLoop, ntErrorsOf]
  | cons l ls ih =>
    intro i r
    by_cases hs : skipLine l
    · simp [ntriplesLoop, ntErrorsOf, hs, ih]
    · cases ho : or' l with
      | ok t => simp [ntriplesLoop, ntErrorsOf, hs, ho, ih, Except.toOption]
      | error e => simp [ntriplesLoop, ntErrorsOf, hs, ho, ih, Except.toOption]

def tv1 : OwnedTriple :=
  .mk .NamedNode "http://s1" "http://p" .Literal "valid object 1" none none none none none

def tv2 : OwnedTriple :=
  .mk .NamedNode "http://s2" "http://p" .Literal "valid object 2" none none none none none

def tv3 : OwnedTriple :=
  .mk .NamedNode "http://s3" "http://p" .Literal "valid object 3" none none none none none

/-- A concrete single-line N-Triples oracle accepting exactly three lines. -/
def ntOracle : LineOracle := fun l =>
  if l = "<http://s1> <http://p> \"valid object 1\" ." then .ok tv1
  else if l = "<http://s2> <http://p> \"valid object 2\" ." then .ok tv2
  else if l = "<http://s3> <http://p> \"valid object 3\" ." then .ok tv3
  else .error "syntax"

/-- The 5-line N-Triples stream: 3 valid and 2 malformed lines interleaved. -/
def ntLines : List String :=
  ["<http://s1> <http://p> \"valid object 1\" .",
   "this is not a valid n-triples line",
   "<http://s2> <http://p> \"valid object 2\" .",
   "another invalid line",
   "<http://s3> <http://p> \"valid object 3\" ."]

/-- C2: for every single-line parser oracle and every line list, lenient
N-Triples parsing treats each non-blank, non-comment physical line
independently: the triples are exactly the oracle's successes on those
lines in original document order, and the errors are exactly one
`ParseError` per rejected line, carrying that line's 1-based number (and
position 1 and the `Parse error:` message); no prefixes are produced.  On
the concrete 3-valid/2-malformed interleaved stream this gives
`triple_count = 3`, `error_count = 2` and error lines `[2, 4]`. -/
theorem C2_ntriples_line_by_line :
    (∀ (or' : LineOracle) (lines : List String),
      parse_ntriples_line_by_line or' lines
        = ⟨lines.filterMap (fun l => if skipLine l then none else (or' l).toOption),
           [], ntErrorsOf or' 0 lines⟩)
    ∧ (parse_ntriples_line_by_line ntOracle ntLines).triple_count = 3
    ∧ (parse_ntriples_line_by_line ntOracle ntLines).error_count = 2
    ∧ (parse_ntriples_line_by_line ntOracle ntLines).triples = [tv1, tv2, tv3]
    ∧ (parse_ntriples_line_by_line ntOracle ntLines).errors.map (fun e => e.line) = [2, 4] := by
  refine ⟨?_, by rfl, by rfl, by rfl, by rfl⟩
  intro or' lines
  unfold parse_ntriples_line_by_line
  rw [ntriplesLoop_eq]
  rfl

/-- Specification companion of `turtleLoop`: the list of (boundary line
number, fragment string) pairs the loop hands to the strict parser, and the
final unflushed buffer. -/
def turtleFragLoop (decls : String) : Nat → String → List String → List (Nat × String) × String
  | _, buf, [] => ([], buf)
  | i, buf, l :: ls =>
    if skipLine l then turtleFragLoop decls (i + 1) buf ls
    else if isPrefixDeclLine l then turtleFragLoop decls (i + 1) buf ls
    else
      let buf' := buf ++ l ++ "\n"
      if endsWithDot l then
        let rest := turtleFragLoop decls (i + 1) "" ls
        ((i + 1, decls ++ "\n" ++ buf') :: rest.1, rest.2)
      else turtleFragLoop decls (i + 1) buf' ls

/-- Triples contributed by a fragment list: the oracle's successes,
concatenated in order. -/
def fragTriples (or' : FragmentOracle) : List (Nat × String) → List OwnedTriple
  | [] => []
  | (_, f) :: rest =>
    (match or' f with | .ok (ts, _) => ts | .error _ => []) ++ fragTriples or' rest

/-- Errors contributed by a fragment list: one `ParseError` at the boundary
line per rejected fragment. -/
def fragErrors (or' : FragmentOracle) : List (Nat × String) → List ParseError
  | [] => []
  | (n, f) :: rest =>
    (match or' f with
     | .ok _ => []
     | .error e => [⟨n, 1, "Parse error: " ++ e⟩]) ++ fragErrors or' rest

/-- Prefix map accumulated over a fragment list by per-fragment
`HashMap::insert`. -/
def fragPrefixAcc (or' : FragmentOracle) (pm : List (String × String)) :
    List (Nat × String) → List (String × String)
  | [] => pm
  | (_, f) :: rest =>
    match or' f with
    | .ok (_, ps) => fragPrefixAcc or' (pmInsertAll pm ps) rest
    | .error _ => fragPrefixAcc or' pm rest

theorem turtleLoop_eq (or' : FragmentOracle) (decls : String) (ls : List String) :
    ∀ (i : Nat) (r : ParseResult) (buf : String),
      turtleLoop or' decls i r buf ls
        = (⟨r.triples ++ fragTriples or' (turtleFragLoop decls i buf ls).1,
            fragPrefixAcc or' r.prefixes (turtleFragLoop decls i buf ls).1,
            r.errors ++ fragErrors or' (turtleFragLoop decls i buf ls).1⟩,
           (turtleFragLoop decls i buf ls).2) := by
  induction ls with
  | nil => intro i r buf; simp [turtleLoop, turtleFragLoop, fragTriples, fragErrors, fragPrefixAcc]
  | cons l ls ih =>
    intro i r buf
    by_cases hs : skipLine l
    · simp [turtleLoop, turtleFragLoop, hs, ih]
    · by_cases hp : isPrefixDeclLine l
      · simp [turtleLoop, turtleFragLoop, hs, hp, ih]
      · by_cases hd : endsWithDot l
        · cases ho : or' (decls ++ "\n" ++ (buf ++ l ++ "\n")) with
          | ok pair =>
            cases pair with
            | mk ts ps =>
              simp [turtleLoop, turtleFragLoop, hs, hp, hd, ho, ih,
                fragTriples, fragErrors, fragPrefixAcc]
          | error e =>
            simp [turtleLoop, turtleFragLoop, hs, hp, hd, ho, ih,
              fragTriples, fragErrors, fragPrefixAcc]
        · simp [turtleLoop, turtleFragLoop, hs, hp, hd, ih]

/-- Oracle accepting every fragment, with one triple. -/
def okOracle : FragmentOracle := fun _ => .ok ([tv1], [])

/-- One valid statement whose terminating `.` is followed by a comment, so
its physical line does not END with `.` and it stays in the buffer until
end of input. -/
def trailingLines : List String := ["ex:a ex:b ex:c . # done"]

/-- C3 counterexample: the trailing unterminated buffer is parsed once more
at end of input and SUCCEEDS (the oracle returns one triple), yet the
parsed triples are NOT merged into the result — the lenient parse returns
zero triples and zero errors, while merging "exactly as at an ordinary
statement boundary" would have produced the fragment's triple. -/
theorem C3_trailing_buffer_counterexample :
    okOracle ("" ++ "\n" ++ ("ex:a ex:b ex:c . # done" ++ "\n")) = .ok ([tv1], [])
    ∧ endsWithDot "ex:a ex:b ex:c . # done" = false
    ∧ (parse_turtle_line_by_line okOracle trailingLines).triples = []
    ∧ (parse_turtle_line_by_line okOracle trailingLines).errors = []
    ∧ [tv1] ≠ ([] : List OwnedTriple) := by
  exact ⟨rfl, by decide, rfl, rfl, by simp⟩

/-- C3 as amended.  In lenient Turtle and TriG parsing the trailing
unterminated buffer is parsed once more through the strict parser, but its
result is used for error reporting only: on success the fragment's triples
are DISCARDED (the result's triples are exactly those of the ordinary
boundary fragments), and on failure a `ParseError` at the last line
(`lines.length`) is appended and the buffer is discarded. -/
theorem C3_trailing_buffer_amended :
    (∀ (or' : FragmentOracle) (lines : List String),
      (parse_turtle_line_by_line or' lines).triples
        = fragTriples or' (turtleFragLoop (prefixDeclarations lines) 0 "" lines).1
      ∧ (parse_turtle_line_by_line or' lines).errors
          = fragErrors or' (turtleFragLoop (prefixDeclarations lines) 0 "" lines).1
            ++ (if (trimChars (turtleFragLoop (prefixDeclarations lines) 0 "" lines).2.data).isEmpty
                then []
                else
                  match or' (prefixDeclarations lines ++ "\n"
                      ++ (turtleFragLoop (prefixDeclarations lines) 0 "" lines).2) with
                  | .ok _ => []
                  | .error e =>
                    [⟨lines.length, 1, "Parse error in final statement: " ++ e⟩]))
    ∧ (∀ (or' : FragmentOracle) (lines : List String),
      (parse_trig_line_by_line or' lines).triples
        = (trigLoop or' (prefixDeclarations lines) 0 0 ParseResult.new "" lines).1.triples
      ∧ (parse_trig_line_by_line or' lines).errors
          = (trigLoop or' (prefixDeclarations lines) 0 0 ParseResult.new "" lines).1.errors
            ++ (if (trimChars
                  (trigLoop or' (prefixDeclarations lines) 0 0 ParseResult.new "" lines).2.data).isEmpty
                then []
                else
                  match or' (prefixDeclarations lines ++ "\n"
                      ++ (trigLoop or' (prefixDeclarations lines) 0 0 ParseResult.new "" lines).2) with
                  | .ok _ => []
                  | .error e =>
                    [⟨lines.length, 1, "Parse error in final statement: " ++ e⟩])) := by
  constructor
  · intro or' lines
    have key := turtleLoop_eq or' (prefixDeclarations lines) lines 0 ParseResult.new ""
    simp only [parse_turtle_line_by_line, key]
    by_cases ht : (trimChars (turtleFragLoop (prefixDeclarations lines) 0 "" lines).2.data).isEmpty
    · simp [ht, ParseResult.new]
    · cases ho : or' (prefixDeclarations lines ++ "\n"
          ++ (turtleFragLoop (prefixDeclarations lines) 0 "" lines).2) with
      | ok pair => simp [ht, ho, ParseResult.new]
      | error e => simp [ht, ho, ParseResult.new]
  · intro or' lines
    simp only [parse_trig_line_by_line]
    by_cases ht : (trimChars
        (trigLoop or' (prefixDeclarations lines) 0 0 ParseResult.new "" lines).2.data).isEmpty
    · simp [ht]
    · cases ho : or' (prefixDeclarations lines ++ "\n"
          ++ (trigLoop or' (prefixDeclarations lines) 0 0 ParseResult.new "" lines).2) with
      | ok pair => simp [ht, ho]
      | error e => simp [ht, ho]

/-- Model of `parse_sparql_prefix` (src/parser/common.rs lines 191-217),
which recognizes the SPARQL `PREFIX name: <iri>` declaration form. -/
def parse_sparql_prefix_decl (line : String) : Option (String × String) :=
  let trimmed := trimChars line.data
  if !strStarts (String.mk (trimmed.map Char.toUpper)) "PREFIX" then none
  else
    let without := trimChars (trimmed.drop 6)
    match without.findIdx? (· = ':') with
    | none => none
    | some colon_pos =>
      let prefix_name := trimChars (without.take colon_pos)
      let iri_part := trimChars (without.drop (colon_pos + 1))
      match iri_part.findIdx? (· = '<'), iri_part.findIdx? (· = '>') with
      | some start_bracket, some end_bracket =>
        if end_bracket ≤ start_bracket then none
        else
          some (String.mk prefix_name,
            String.mk ((iri_part.take end_bracket).drop (start_bracket + 1)))
      | _, _ => none

/-- A document declaring its prefix in the SPARQL `PREFIX` form, followed by
a statement using it. -/
def c4Lines : List String := ["PREFIX ex: <http://e/> .", "ex:a ex:b ex:c ."]

/-- C4 counterexample: the first line of `c4Lines` IS a prefix-declaration
line in one of the claim's three forms (`parse_sparql_prefix` accepts it),
yet pass 1 of the lenient Turtle loop collects NOTHING (it only collects
lines whose trimmed form starts with `@prefix`), and the second statement's
fragment does not contain the declaration — the fragment does not retain
the active prefix. -/
theorem C4_prefix_collection_counterexample :
    parse_sparql_prefix_decl "PREFIX ex: <http://e/> ." = some ("ex", "http://e/")
    ∧ prefixDeclarations c4Lines = ""
    ∧ (turtleFragLoop (prefixDeclarations c4Lines) 0 "" c4Lines).1
        = [(1, "\nPREFIX ex: <http://e/> .\n"), (2, "\nex:a ex:b ex:c .\n")] := by
  exact ⟨by decide, rfl, rfl⟩

/-- Concatenation of a list of strings (the shape of the collected prefix
block). -/
def strConcat : List String → String
  | [] => ""
  | s :: rest => s ++ strConcat rest

theorem prefixDecls_foldl (ls : List String) :
    ∀ acc : String,
      ls.foldl (fun acc l => if isPrefixDeclLine l then acc ++ l ++ "\n" else acc) acc
        = acc ++ strConcat ((ls.filter (fun l => isPrefixDeclLine l)).map (· ++ "\n")) := by
  induction ls with
  | nil => intro acc; simp [strConcat]
  | cons l ls ih =>
    intro acc
    cases hp : isPrefixDeclLine l with
    | true =>
      simp only [List.foldl_cons, List.filter_cons, hp, if_true, List.map_cons]
      rw [ih, strConcat]
      simp [String.append_assoc]
    | false =>
      simp only [List.foldl_cons, List.filter_cons, hp, Bool.false_eq_true, if_false]
      exact ih acc

theorem turtleFragLoop_fragment_shape (decls : String) (ls : List String) :
    ∀ (i : Nat) (buf : String) (n : Nat) (f : String),
      (n, f) ∈ (turtleFragLoop decls i buf ls).1 → ∃ b, f = decls ++ "\n" ++ b := by
  induction ls with
  | nil => intro i buf n f h; simp [turtleFragLoop] at h
  | cons l ls ih =>
    intro i buf n f h
    by_cases hs : skipLine l
    · exact ih (i + 1) buf n f (by simpa [turtleFragLoop, hs] using h)
    · by_cases hp : isPrefixDeclLine l
      · exact ih (i + 1) buf n f (by simpa [turtleFragLoop, hs, hp] using h)
      · by_cases hd : endsWithDot l
        · simp only [turtleFragLoop, hs, hp, hd, if_neg, if_pos, Bool.false_eq_true,
            not_false_eq_true, List.mem_cons] at h
          rcases h with h | h
          · exact ⟨buf ++ l ++ "\n", by rw [Prod.mk.injEq] at h; exact h.2⟩
          · exact ih (i + 1) "" n f h
        · exact ih (i + 1) (buf ++ l ++ "\n") n f (by simpa [turtleFragLoop, hs, hp, hd] using h)

/-- C4 as amended.  Pass 1 of the lenient Turtle/TriG recovery collects
ONLY the lines whose trimmed form starts with `@prefix` (in document
order, each with a trailing newline); `PREFIX`- and `@base`-form
declarations are NOT collected (they flow into the statement buffers
instead, as in the counterexample).  Every boundary fragment handed to the
strict parser is the collected `@prefix` block, a newline, and the
statement buffer. -/
theorem C4_prefix_collection_amended :
    (∀ lines : List String,
      prefixDeclarations lines
        = strConcat ((lines.filter (fun l => isPrefixDeclLine l)).map (· ++ "\n")))
    ∧ ∀ (decls : String) (ls : List String) (i : Nat) (buf : String) (n : Nat) (f : String),
        (n, f) ∈ (turtleFragLoop decls i buf ls).1 → ∃ b, f = decls ++ "\n" ++ b := by
  constructor
  · intro lines
    unfold prefixDeclarations
    rw [prefixDecls_foldl]
    simp
  · intro decls ls i buf n f h
    exact turtleFragLoop_fragment_shape decls ls i buf n f h

/-- C4 witness: the amended claim at the concrete `c4Lines` document. -/
theorem C4_prefix_collection_amended_witness :
    prefixDeclarations c4Lines
      = strConcat ((c4Lines.filter (fun l => isPrefixDeclLine l)).map (· ++ "\n"))
    ∧ ∃ b, "\nex:a ex:b ex:c .\n" = prefixDeclarations c4Lines ++ "\n" ++ b := by
  obtain ⟨h1, h2⟩ := C4_prefix_collection_amended
  refine ⟨h1 c4Lines, ?_⟩
  exact h2 (prefixDeclarations c4Lines) c4Lines 0 "" 2 "\nex:a ex:b ex:c .\n"
    (by rw [show (turtleFragLoop (prefixDeclarations c4Lines) 0 "" c4Lines).1
          = [(1, "\nPREFIX ex: <http://e/> .\n"), (2, "\nex:a ex:b ex:c .\n")] from rfl]
        simp)

/-! Section: Strict Turtle parsing and claim C1.
The strict parser is the external oxttl `TurtleParser` (out of scope per
spec sections 1 and 6), so it is modelled from the spec for the grammar
fragment the claim needs: statements of three `<IRI>` terms terminated by
`.`, `#`-comments running to end of line, and whitespace. -/

/-- Tokens of the modelled Turtle fragment. -/
inductive Tok where
  | iriTok (cs : List Char)
  | dotTok
deriving DecidableEq, Repr

/-- Tokenizer state: between tokens, inside a comment, or inside an
`<...>` IRI reference (accumulator reversed). -/
inductive TokSt where
  | normal
  | comment
  | iriSt (acc : List Char)
deriving DecidableEq, Repr

/-- Modelled from the spec: the tokenizer of the external strict Turtle
parser, restricted to IRI references, the statement terminator `.`,
`#`-comments (ending at a newline) and whitespace.  Returns the tokens and
the final state, or `none` on a lexing error (an IRI may not contain a
newline, and no other character may start a token). -/
def tokRun : TokSt → List Char → Option (List Tok × TokSt)
  | st, [] => some ([], st)
  | st, c :: cs =>
    match st with
    | .normal =>
      if c = '#' then tokRun .comment cs
      else if wsChar c then tokRun .normal cs
      else if c = '.' then (tokRun .normal cs).map (fun p => (Tok.dotTok :: p.1, p.2))
      else if c = '<' then tokRun (.iriSt []) cs
      else none
    | .comment => if c = '\n' then tokRun .normal cs else tokRun .comment cs
    | .iriSt acc =>
      if c = '>' then (tokRun .normal cs).map (fun p => (Tok.iriTok acc.reverse :: p.1, p.2))
      else if c = '\n' then none
      else tokRun (.iriSt (c :: acc)) cs

/-- Tokenization of a whole input: a final state inside an IRI is an
error; a final state inside a comment is fine. -/
def tokenize (cs : List Char) : Option (List Tok) :=
  match tokRun .normal cs with
  | some (ts, .normal) => some ts
  | some (ts, .comment) => some ts
  | _ => none

/-- Modelled from the spec: the statement grammar of the strict parser on
the modelled fragment — zero or more `IRI IRI IRI .` statements. -/
def parseStmts : List Tok → Option (List (List Char × List Char × List Char))
  | [] => some []
  | .iriTok a :: .iriTok b :: .iriTok c :: .dotTok :: rest =>
    (parseStmts rest).map (fun l => (a, b, c) :: l)
  | _ => none

/-- The `OwnedTriple` the adapter produces for an all-NamedNode statement. -/
def ownedOfSpo : List Char × List Char × List Char → OwnedTriple
  | (a, b, c) =>
    .mk .NamedNode (String.mk a) (String.mk b) .NamedNode (String.mk c) none none none none none

/-- Modelled from the spec: the external strict Turtle parser
(`TurtleParser ... .for_reader`) on the modelled grammar fragment —
either every statement parses, or a syntax error. -/
def miniTurtleParse (s : String) : Except String (List OwnedTriple) :=
  match tokenize s.data with
  | none => .error "syntax error"
  | some tks =>
    match parseStmts tks with
    | none => .error "syntax error"
    | some stmts => .ok (stmts.map ownedOfSpo)

/-- The fragment oracle induced by the strict parser: mirrors
`try_parse_turtle_fragment` (src/parser/robust.rs lines 167-185), which
returns the fragment's triples and an EMPTY prefix map. -/
def miniFragmentOracle : FragmentOracle := fun s =>
  (miniTurtleParse s).map (fun ts => (ts, []))

/-- Newline-joining of the physical lines back into the byte stream both
modes read (no line contains a newline). -/
def joinData : List (List Char) → List Char
  | [] => []
  | [a] => a
  | a :: rest => a ++ '\n' :: joinData rest

def docOf (lines : List String) : String := String.mk (joinData (lines.map String.data))

/-- Model of `parse_turtle_robust` (src/parser/robust.rs lines 62-91) over
the modelled strict parser: strict mode feeds the whole stream to the
strict parser (aborting on its error, collecting no prefixes); lenient
mode runs the line-by-line recovery with the fragment oracle. -/
def parse_turtle_robust (lines : List String) (continue_on_error : Bool) :
    Except String ParseResult :=
  if continue_on_error then .ok (parse_turtle_line_by_line miniFragmentOracle lines)
  else (miniTurtleParse (docOf lines)).map (fun ts => ⟨ts, [], []⟩)

/-- The triple of the C1 counterexample document. -/
def tAbc : OwnedTriple :=
  .mk .NamedNode "http://a" "http://b" .NamedNode "http://c" none none none none none

/-- C1 counterexample: the one-line document
`<http://a> <http://b> <http://c> . # done` is valid Turtle with zero
malformed statements (strict mode parses it to one triple), but because
the trailing comment keeps the physical line from ENDING with `.`, the
lenient pass never flushes the buffer at a boundary and the end-of-input
attempt discards the successfully parsed triple: lenient yields zero
triples (and zero errors), a different triple sequence than strict. -/
theorem C1_strict_lenient_counterexample :
    parse_turtle_robust ["<http://a> <http://b> <http://c> . # done"] false
      = .ok ⟨[tAbc], [], []⟩
    ∧ parse_turtle_robust ["<http://a> <http://b> <http://c> . # done"] true
      = .ok ⟨[], [], []⟩
    ∧ [tAbc] ≠ ([] : List OwnedTriple) := by
  exact ⟨rfl, rfl, by simp⟩

theorem tokRun_append (b : List Char) :
    ∀ (a : List Char) (st : TokSt),
      tokRun st (a ++ b)
        = (tokRun st a).bind (fun p => (tokRun p.2 b).map (fun q => (p.1 ++ q.1, q.2))) := by
  intro a
  induction a with
  | nil =>
    intro st
    rw [List.nil_append, show tokRun st [] = some ([], st) from rfl]
    cases h : tokRun st b with
    | none => simp [h]
    | some q => simp [h]
  | cons c a ih =>
    intro st
    cases st with
    | normal =>
      by_cases h1 : c = '#'
      · simp only [List.cons_append, tokRun, if_pos h1, List.append_eq]
        exact ih .comment
      · by_cases h2 : wsChar c = true
        · simp only [List.cons_append, tokRun, if_neg h1, if_pos h2, List.append_eq]
          exact ih .normal
        · by_cases h3 : c = '.'
          · simp only [List.cons_append, tokRun, if_neg h1, if_neg h2, if_pos h3,
              List.append_eq]
            rw [ih .normal]
            cases hA : tokRun TokSt.normal a with
            | none => rfl
            | some p =>
              cases hB : tokRun p.2 b with
              | none => simp [hB]
              | some q => simp [hB]
          · by_cases h4 : c = '<'
            · simp only [List.cons_append, tokRun, if_neg h1, if_neg h2, if_neg h3,
                if_pos h4, List.append_eq]
              exact ih (.iriSt [])
            · simp only [List.cons_append, tokRun, if_neg h1, if_neg h2, if_neg h3,
                if_neg h4, List.append_eq]
              rfl
    | comment =>
      by_cases h1 : c = '\n'
      · simp only [List.cons_append, tokRun, if_pos h1, List.append_eq]
        exact ih .normal
      · simp only [List.cons_append, tokRun, if_neg h1, List.append_eq]
        exact ih .comment
    | iriSt acc =>
      by_cases h1 : c = '>'
      · simp only [List.cons_append, tokRun, if_pos h1, List.append_eq]
        rw [ih .normal]
        cases hA : tokRun TokSt.normal a with
        | none => rfl
        | some p =>
          cases hB : tokRun p.2 b with
          | none => simp [hB]
          | some q => simp [hB]
      · by_cases h2 : c = '\n'
        · simp only [List.cons_append, tokRun, if_neg h1, if_pos h2]
          rfl
        · simp only [List.cons_append, tokRun, if_neg h1, if_neg h2, List.append_eq]
          exact ih (.iriSt (c :: acc))

theorem rtrimChars_eq_nil_iff (xs : List Char) :
    rtrimChars xs = [] ↔ ∀ c ∈ xs, wsChar c = true := by
  induction xs with
  | nil => simp [rtrimChars]
  | cons c cs ih =>
    constructor
    · intro h
      simp only [rtrimChars] at h
      cases hr : rtrimChars cs with
      | nil =>
        rw [hr] at h
        by_cases hw : wsChar c = true
        · intro x hx
          rcases List.mem_cons.mp hx with rfl | hx
          · exact hw
          · exact ih.mp hr x hx
        · rw [if_neg hw] at h; simp at h
      | cons r rs => rw [hr] at h; simp at h
    · intro h
      have hr : rtrimChars cs = [] := ih.mpr (fun x hx => h x (by simp [hx]))
      simp [rtrimChars, hr, h c (by simp)]

theorem rtrimChars_head (xs : List Char) (h : rtrimChars xs ≠ []) :
    (rtrimChars xs).head? = xs.head? := by
  cases xs with
  | nil => simp [rtrimChars] at h
  | cons c cs =>
    simp only [rtrimChars]
    cases hr : rtrimChars cs with
    | nil =>
      by_cases hw : wsChar c = true
      · simp only [rtrimChars, hr] at h
        rw [if_pos hw] at h
        simp at h
      · simp [hw]
    | cons r rs => simp

theorem trimChars_eq_nil_iff (cs : List Char) :
    trimChars cs = [] ↔ ∀ c ∈ cs, wsChar c = true := by
  unfold trimChars
  rw [rtrimChars_eq_nil_iff]
  constructor
  · intro h c hc
    by_contra hw
    have hmem : c ∈ cs.dropWhile wsChar := by
      have hd : cs.dropWhile wsChar = [] → False := by
        intro hnil
        exact hw (by
          have := List.dropWhile_eq_nil_iff.mp hnil
          exact this c hc)
      cases hdw : cs.dropWhile wsChar with
      | nil => exact absurd hdw hd
      | cons x xs =>
        exact absurd (h x (by rw [hdw]; simp)) (by
          have := List.head?_dropWhile_not wsChar cs
          rw [hdw] at this
          simp at this
          simp [this])
    exact hw (h c hmem)
  · intro h c hc
    exact h c ((List.dropWhile_sublist wsChar).subset hc)

theorem tokRun_all_ws (cs : List Char) (h : ∀ c ∈ cs, wsChar c = true) :
    tokRun .normal cs = some ([], .normal) := by
  induction cs with
  | nil => rfl
  | cons c cs ih =>
    have hw : wsChar c = true := h c (by simp)
    have hne : ¬(c = '#') := by
      intro hc; subst hc; simp [wsChar] at hw
    simp only [tokRun, if_neg hne, if_pos hw]
    exact ih (fun x hx => h x (by simp [hx]))

theorem tokRun_leading_ws (pre cs : List Char) (h : ∀ c ∈ pre, wsChar c = true) :
    tokRun .normal (pre ++ cs) = tokRun .normal cs := by
  induction pre with
  | nil => rfl
  | cons c p ih =>
    have hw : wsChar c = true := h c (by simp)
    have hne : ¬(c = '#') := by
      intro hc; subst hc; simp [wsChar] at hw
    simp only [List.cons_append, tokRun, if_neg hne, if_pos hw]
    exact ih (fun x hx => h x (by simp [hx]))

theorem tokRun_comment_no_newline (cs : List Char) (h : '\n' ∉ cs) :
    tokRun .comment cs = some ([], .comment) := by
  induction cs with
  | nil => rfl
  | cons c cs ih =>
    have hne : ¬(c = '\n') := by
      intro hc; subst hc; exact h (by simp)
    simp only [tokRun, if_neg hne]
    exact ih (fun hx => h (by simp [hx]))

theorem skipLine_tokRun (l : String) (hs : skipLine l = true) (hn : '\n' ∉ l.data) :
    ∃ st, tokRun .normal l.data = some ([], st) ∧ (st = .normal ∨ st = .comment) := by
  unfold skipLine at hs
  rw [Bool.or_eq_true] at hs
  rcases hs with hs | hs
  · have hall : ∀ c ∈ l.data, wsChar c = true :=
      (trimChars_eq_nil_iff l.data).mp (by
        cases ht : trimChars l.data with
        | nil => rfl
        | cons x xs => rw [ht] at hs; simp at hs)
    exact ⟨.normal, tokRun_all_ws l.data hall, Or.inl rfl⟩
  · have hne : trimChars l.data ≠ [] := by
      intro h0; rw [h0] at hs; simp at hs
    have hhead : (trimChars l.data).head? = some '#' := by
      cases hh : (trimChars l.data).head? with
      | none => rw [hh] at hs; simp at hs
      | some x =>
        rw [hh] at hs
        simp only [beq_iff_eq, Option.some.injEq] at hs
        rw [hs]
    have hdw : (l.data.dropWhile wsChar).head? = some '#' := by
      rw [← rtrimChars_head (l.data.dropWhile wsChar) (by unfold trimChars at hne; exact hne)]
      exact hhead
    cases hdrop : l.data.dropWhile wsChar with
    | nil => rw [hdrop] at hdw; simp at hdw
    | cons x rest =>
      rw [hdrop] at hdw
      simp only [List.head?_cons, Option.some.injEq] at hdw
      subst hdw
      have hsplit : l.data = l.data.takeWhile wsChar ++ '#' :: rest := by
        conv_lhs => rw [← List.takeWhile_append_dropWhile (p := wsChar) (l := l.data)]
        rw [hdrop]
      refine ⟨.comment, ?_, Or.inr rfl⟩
      rw [hsplit, tokRun_leading_ws _ _ (fun c hc => List.mem_takeWhile_imp hc)]
      simp only [tokRun, if_pos rfl]
      refine tokRun_comment_no_newline rest ?_
      intro hmem
      exact hn (by rw [hsplit]; simp [hmem])

/-- The single complete statement a physical line carries, when it is one:
tokens `IRI IRI IRI .` and nothing else. -/
def lineStmt? (l : String) : Option (List Char × List Char × List Char) :=
  match tokenize l.data with
  | some [Tok.iriTok a, Tok.iriTok b, Tok.iriTok c, Tok.dotTok] => some (a, b, c)
  | _ => none

/-- A line that is one complete statement whose trimmed form ends with the
terminator `.` (so the lenient loop flushes it at a boundary). -/
def stmtLineOk (l : String) : Bool := (lineStmt? l).isSome && endsWithDot l

/-- The amended-claim side condition on a physical line: no embedded
newline, and the line is blank/comment or one boundary-terminated
statement. -/
def goodLine (l : String) : Bool :=
  !(l.data.contains '\n') && (skipLine l || stmtLineOk l)

/-- Statements of a line-per-statement document, in order. -/
def stmtsOf (lines : List String) : List (List Char × List Char × List Char) :=
  lines.filterMap lineStmt?

/-- Triples of a line-per-statement document, in order. -/
def tripsOf (lines : List String) : List OwnedTriple :=
  (stmtsOf lines).map ownedOfSpo

theorem tokenize_tokRun (cs : List Char) (ts : List Tok) (h : tokenize cs = some ts) :
    ∃ st, tokRun .normal cs = some (ts, st) ∧ (st = .normal ∨ st = .comment) := by
  unfold tokenize at h
  cases hr : tokRun .normal cs with
  | none => rw [hr] at h; simp at h
  | some p =>
    rw [hr] at h
    cases p with
    | mk ts' st =>
      cases st with
      | normal => simp only [Option.some.injEq] at h; exact ⟨.normal, by rw [h], Or.inl rfl⟩
      | comment => simp only [Option.some.injEq] at h; exact ⟨.comment, by rw [h], Or.inr rfl⟩
      | iriSt acc => simp at h

theorem tokRun_of_tokenize_st (cs : List Char) (ts : List Tok) (st : TokSt)
    (h : tokRun .normal cs = some (ts, st)) (hst : st = .normal ∨ st = .comment) :
    tokenize cs = some ts := by
  rcases hst with rfl | rfl <;> simp [tokenize, h]

theorem skipLine_tokenize (l : String) (hs : skipLine l = true) (hn : '\n' ∉ l.data) :
    tokenize l.data = some [] := by
  obtain ⟨st, hr, hst⟩ := skipLine_tokRun l hs hn
  exact tokRun_of_tokenize_st l.data [] st hr hst

theorem lineStmt?_eq_some (l : String) (a b c : List Char)
    (h : lineStmt? l = some (a, b, c)) :
    tokenize l.data = some [Tok.iriTok a, Tok.iriTok b, Tok.iriTok c, Tok.dotTok] := by
  unfold lineStmt? at h
  split at h
  · rename_i heq
    simp only [Option.some.injEq, Prod.mk.injEq] at h
    rw [heq, h.1, h.2.1, h.2.2]
  · simp at h

theorem tokRun_iri_head (cs : List Char) :
    ∀ (a : List Char) (ts : List Tok) (st : TokSt), '\n' ∉ cs →
      tokRun .normal cs = some (Tok.iriTok a :: ts, st) →
      (cs.dropWhile wsChar).head? = some '<' := by
  induction cs with
  | nil => intro a ts st _ h; simp [tokRun] at h
  | cons c cs ih =>
    intro a ts st hn h
    by_cases h1 : c = '#'
    · subst h1
      simp only [tokRun, if_pos rfl] at h
      rw [tokRun_comment_no_newline cs (fun hx => hn (by simp [hx]))] at h
      simp at h
    · by_cases h2 : wsChar c = true
      · rw [List.dropWhile_cons_of_pos h2]
        simp only [tokRun, if_neg h1, if_pos h2] at h
        exact ih a ts st (fun hx => hn (by simp [hx])) h
      · by_cases h3 : c = '.'
        · simp only [tokRun, if_neg h1, if_neg h2, if_pos h3] at h
          cases hr : tokRun TokSt.normal cs with
          | none => rw [hr] at h; simp at h
          | some p => rw [hr] at h; simp at h
        · by_cases h4 : c = '<'
          · rw [List.dropWhile_cons_of_neg h2, h4]
            rfl
          · simp [tokRun, h1, h2, h3, h4] at h

theorem trim_head_of_stmt (l : String) (a b c : List Char)
    (hn : '\n' ∉ l.data) (h : lineStmt? l = some (a, b, c)) :
    (trimChars l.data).head? = some '<' := by
  have htk := lineStmt?_eq_some l a b c h
  obtain ⟨st, hr, _⟩ := tokenize_tokRun l.data _ htk
  have hdw := tokRun_iri_head l.data a _ st hn hr
  unfold trimChars
  cases hdrop : l.data.dropWhile wsChar with
  | nil => rw [hdrop] at hdw; simp at hdw
  | cons x rest =>
    rw [hdrop] at hdw
    simp only [List.head?_cons, Option.some.injEq] at hdw
    subst hdw
    rw [rtrimChars_head ('<' :: rest) (by
      intro h0
      have := (rtrimChars_eq_nil_iff ('<' :: rest)).mp h0 '<' (by simp)
      simp [wsChar] at this)]
    rfl

theorem isPrefixDeclLine_false_of_head (l : String)
    (h : ∀ x, (trimChars l.data).head? = some x → x ≠ '@') :
    isPrefixDeclLine l = false := by
  unfold isPrefixDeclLine strStarts strTrim
  cases ht : trimChars l.data with
  | nil => rfl
  | cons x xs =>
    have hx : x ≠ '@' := h x (by rw [ht]; rfl)
    have hdata : "@prefix".data = ['@', 'p', 'r', 'e', 'f', 'i', 'x'] := rfl
    show ("@prefix".data.isPrefixOf (String.mk (x :: xs)).data) = false
    rw [hdata]
    show (('@' == x) && _) = false
    simp [hx, Ne.symm hx]

/-- Tokens contributed by one physical line (empty for blank/comment
lines). -/
def tokensOf (l : String) : List Tok :=
  match tokenize l.data with
  | some ts => ts
  | none => []

def tokensConcat : List String → List Tok
  | [] => []
  | l :: ls => tokensOf l ++ tokensConcat ls

theorem contains_of_mem (cs : List Char) (c : Char) (h : c ∈ cs) : cs.contains c = true := by
  induction cs with
  | nil => simp at h
  | cons x xs ih =>
    rcases List.mem_cons.mp h with rfl | h
    · simp [List.contains_cons]
    · simp only [List.contains_cons, Bool.or_eq_true]
      exact Or.inr (ih h)

theorem goodLine_no_newline (l : String) (h : goodLine l = true) : '\n' ∉ l.data := by
  unfold goodLine at h
  rw [Bool.and_eq_true] at h
  intro hx
  have hc := contains_of_mem l.data '\n' hx
  rw [hc] at h
  simp at h

theorem goodLine_tokenize (l : String) (h : goodLine l = true) :
    tokenize l.data = some (tokensOf l) := by
  have hn := goodLine_no_newline l h
  unfold goodLine at h
  rw [Bool.and_eq_true, Bool.or_eq_true] at h
  rcases h.2 with hs | hst
  · rw [tokensOf, skipLine_tokenize l hs hn]
  · unfold stmtLineOk at hst
    rw [Bool.and_eq_true] at hst
    obtain ⟨⟨a, b, c⟩, hp⟩ := Option.isSome_iff_exists.mp hst.1
    rw [tokensOf, lineStmt?_eq_some l a b c hp]

theorem tokenize_line_newline_wrap (l : String) (ts : List Tok)
    (hn : '\n' ∉ l.data) (h : tokenize l.data = some ts) :
    tokenize ('\n' :: (l.data ++ ['\n'])) = some ts := by
  obtain ⟨st, hr, hst⟩ := tokenize_tokRun l.data ts h
  have hstep : tokRun .normal ('\n' :: (l.data ++ ['\n'])) = tokRun .normal (l.data ++ ['\n']) := by
    simp [tokRun, wsChar]
  have happ := tokRun_append ['\n'] l.data .normal
  rw [hr] at happ
  have hnl : ∀ st', (st' = TokSt.normal ∨ st' = TokSt.comment) →
      tokRun st' ['\n'] = some ([], .normal) := by
    intro st' hst'
    rcases hst' with rfl | rfl
    · simp [tokRun, wsChar]
    · simp [tokRun]
  rw [tokenize, hstep, happ]
  simp [hnl st hst]

theorem tokRun_join_good (lines : List String) (h : ∀ l ∈ lines, goodLine l = true) :
    ∃ st, tokRun .normal (joinData (lines.map String.data))
        = some (tokensConcat lines, st)
      ∧ (st = .normal ∨ st = .comment) := by
  induction lines with
  | nil => exact ⟨.normal, rfl, Or.inl rfl⟩
  | cons l ls ih =>
    have hgl := h l (by simp)
    obtain ⟨st, hr, hst⟩ := tokenize_tokRun l.data _ (goodLine_tokenize l hgl)
    cases ls with
    | nil =>
      refine ⟨st, ?_, hst⟩
      show tokRun .normal l.data = _
      rw [hr, tokensConcat, tokensConcat, List.append_nil]
    | cons l' ls' =>
      obtain ⟨stJ, hrJ, hstJ⟩ := ih (fun x hx => h x (by simp [hx]))
      refine ⟨stJ, ?_, hstJ⟩
      show tokRun .normal (l.data ++ '\n' :: joinData ((l' :: ls').map String.data)) = _
      rw [tokRun_append ('\n' :: joinData ((l' :: ls').map String.data)) l.data .normal, hr]
      have hcomm : tokRun st ('\n' :: joinData ((l' :: ls').map String.data))
          = tokRun .normal (joinData ((l' :: ls').map String.data)) := by
        rcases hst with rfl | rfl
        · simp [tokRun, wsChar]
        · simp [tokRun]
      simp only [List.map_cons] at hcomm hrJ ⊢
      simp [hcomm, hrJ, tokensConcat]

theorem parseStmts_concat (lines : List String) (h : ∀ l ∈ lines, goodLine l = true) :
    parseStmts (tokensConcat lines) = some (stmtsOf lines) := by
  induction lines with
  | nil => rfl
  | cons l ls ih =>
    have hgl := h l (by simp)
    have hih := ih (fun x hx => h x (by simp [hx]))
    have hn : '\n' ∉ l.data := goodLine_no_newline l hgl
    unfold goodLine at hgl
    rw [Bool.and_eq_true, Bool.or_eq_true] at hgl
    rcases hgl.2 with hs | hst
    · have htk : tokenize l.data = some [] := skipLine_tokenize l hs hn
      have hto : tokensOf l = [] := by rw [tokensOf, htk]
      have hls : lineStmt? l = none := by unfold lineStmt?; rw [htk]
      simp only [tokensConcat, hto, List.nil_append, hih, stmtsOf, List.filterMap_cons, hls]
    · unfold stmtLineOk at hst
      rw [Bool.and_eq_true] at hst
      obtain ⟨⟨a, b, c⟩, hp⟩ := Option.isSome_iff_exists.mp hst.1
      have hto : tokensOf l = [Tok.iriTok a, Tok.iriTok b, Tok.iriTok c, Tok.dotTok] := by
        rw [tokensOf, lineStmt?_eq_some l a b c hp]
      simp [tokensConcat, hto, stmtsOf, List.filterMap_cons, hp, List.cons_append,
        parseStmts, hih]

theorem strict_good (lines : List String) (h : ∀ l ∈ lines, goodLine l = true) :
    miniTurtleParse (docOf lines) = .ok (tripsOf lines) := by
  obtain ⟨st, hr, hst⟩ := tokRun_join_good lines h
  have htk : tokenize (docOf lines).data = some (tokensConcat lines) := by
    show tokenize (joinData (lines.map String.data)) = _
    exact tokRun_of_tokenize_st _ _ st hr hst
  rw [miniTurtleParse, htk]
  simp only [parseStmts_concat lines h]
  rfl

theorem goodLine_not_prefixDecl (l : String) (h : goodLine l = true) :
    isPrefixDeclLine l = false := by
  have hn := goodLine_no_newline l h
  unfold goodLine at h
  rw [Bool.and_eq_true, Bool.or_eq_true] at h
  rcases h.2 with hs | hst
  · apply isPrefixDeclLine_false_of_head
    intro x hx
    unfold skipLine at hs
    rw [Bool.or_eq_true] at hs
    rcases hs with hs | hs
    · cases ht : trimChars l.data with
      | nil => rw [ht] at hx; simp at hx
      | cons y ys => rw [ht] at hs; simp at hs
    · rw [hx] at hs
      simp only [beq_iff_eq, Option.some.injEq] at hs
      subst hs
      decide
  · unfold stmtLineOk at hst
    rw [Bool.and_eq_true] at hst
    obtain ⟨⟨a, b, c⟩, hp⟩ := Option.isSome_iff_exists.mp hst.1
    have hh := trim_head_of_stmt l a b c hn hp
    apply isPrefixDeclLine_false_of_head
    intro x hx
    rw [hh] at hx
    simp only [Option.some.injEq] at hx
    subst hx
    decide

theorem prefixDecls_empty_of_good (lines : List String)
    (h : ∀ l ∈ lines, goodLine l = true) :
    prefixDeclarations lines = "" := by
  unfold prefixDeclarations
  rw [prefixDecls_foldl]
  rw [List.filter_eq_nil_iff.mpr (fun l hl => by simp [goodLine_not_prefixDecl l (h l hl)])]
  rfl

theorem lenient_good (lines : List String) (h : ∀ l ∈ lines, goodLine l = true) :
    ∀ (i : Nat) (r : ParseResult),
      turtleLoop miniFragmentOracle "" i r "" lines
        = (⟨r.triples ++ tripsOf lines, r.prefixes, r.errors⟩, "") := by
  induction lines with
  | nil => intro i r; simp [turtleLoop, tripsOf, stmtsOf]
  | cons l ls ih =>
    intro i r
    have hgl := h l (by simp)
    have hih := ih (fun x hx => h x (by simp [hx]))
    have hn := goodLine_no_newline l hgl
    have hnp := goodLine_not_prefixDecl l hgl
    by_cases hs : skipLine l = true
    · have hls : lineStmt? l = none := by
        unfold lineStmt?; rw [skipLine_tokenize l hs hn]
      simp only [turtleLoop, hs, if_pos]
      rw [hih (i + 1) r]
      simp [tripsOf, stmtsOf, List.filterMap_cons, hls]
    · have hst : stmtLineOk l = true := by
        have := hgl
        unfold goodLine at this
        rw [Bool.and_eq_true, Bool.or_eq_true] at this
        rcases this.2 with h' | h'
        · exact absurd h' hs
        · exact h'
      have hst' := hst
      unfold stmtLineOk at hst'
      rw [Bool.and_eq_true] at hst'
      obtain ⟨⟨a, b, c⟩, hp⟩ := Option.isSome_iff_exists.mp hst'.1
      have hd : endsWithDot l = true := hst'.2
      have hfd : ("" ++ "\n" ++ ("" ++ l ++ "\n")).data = '\n' :: (l.data ++ ['\n']) := by
        simp [String.data_append]
      have hor : miniFragmentOracle ("" ++ "\n" ++ ("" ++ l ++ "\n"))
          = .ok ([ownedOfSpo (a, b, c)], []) := by
        unfold miniFragmentOracle miniTurtleParse
        rw [hfd, tokenize_line_newline_wrap l _ hn (lineStmt?_eq_some l a b c hp)]
        rfl
      simp only [turtleLoop, if_neg hs, hnp, Bool.false_eq_true, if_false, hd, if_true, hor]
      rw [hih (i + 1) ⟨r.triples ++ [ownedOfSpo (a, b, c)], pmInsertAll r.prefixes [], r.errors⟩]
      simp [pmInsertAll, List.append_assoc, tripsOf, stmtsOf, List.filterMap_cons, hp]

/-- C1 as amended.  Strict and lenient parses yield identical triple
sequences (and the lenient parse records no errors) for valid documents in
which every physical line is blank, a comment, or one complete statement
whose trimmed form ends with the terminator `.` (in the modelled grammar
fragment: IRI-term statements, no prefix declarations).  For general valid
documents the two modes can differ: a trailing comment after the final `.`
of a statement makes the lenient pass drop the statement
(counterexample). -/
theorem C1_strict_lenient_amended (lines : List String)
    (h : ∀ l ∈ lines, goodLine l = true) :
    parse_turtle_robust lines false = .ok ⟨tripsOf lines, [], []⟩
    ∧ parse_turtle_robust lines true = .ok ⟨tripsOf lines, [], []⟩ := by
  constructor
  · unfold parse_turtle_robust
    rw [if_neg (by simp), strict_good lines h]
    rfl
  · unfold parse_turtle_robust
    rw [if_pos rfl]
    simp only [parse_turtle_line_by_line, prefixDecls_empty_of_good lines h,
      lenient_good lines h 0 ParseResult.new]
    simp [ParseResult.new, trimChars, rtrimChars]

/-- C1 witness: the amended claim at a concrete one-statement document. -/
theorem C1_strict_lenient_amended_witness :
    parse_turtle_robust ["<http://a> <http://b> <http://c> ."] false
      = .ok ⟨[tAbc], [], []⟩
    ∧ parse_turtle_robust ["<http://a> <http://b> <http://c> ."] true
      = .ok ⟨[tAbc], [], []⟩ := by
  have h := C1_strict_lenient_amended ["<http://a> <http://b> <http://c> ."]
    (by intro l hl; rw [List.mem_singleton.mp hl]; rfl)
  rw [show tripsOf ["<http://a> <http://b> <http://c> ."] = [tAbc] from rfl] at h
  exact h

end Rdfless
